import Mathlib

/-!
# trix: a shallow embedding of `trix.go`

The package is glue around three external collaborators: the operating system
(files, standard input), the OAuth2 library and the Sheets service. They are
not part of the package, so they enter the embedding as an environment `Env`
of operations over an arbitrary world state `ω`; every statement is proved for
all environments. The package's own functions are translated line by line and
run in `Proc`, which threads the world, collects the observable events in
program order and distinguishes normal return from `log.Fatalf` (process
exit) and from a run-time panic.

Two environments are built to run the package on. The fake is a small test
double. The host has a file tree with directories and writes and reads tokens
as `encoding/json` does; the round trip of the token cache is proved on it.
-/

namespace TrixGo

/-! ## Go values -/

/-- A Go `error` value. `external` is an error made by a collaborator (the
operating system, the JSON decoder, the OAuth2 or Sheets client); `errorString`
is the value `fmt.Errorf` makes from a format without `%w`. -/
inductive GoError where
  | external (msg : String)
  | errorString (msg : String)
  deriving DecidableEq, Repr

/-- The method `Error()` of an error value. -/
def GoError.Error : GoError → String
  | .external m => m
  | .errorString m => m

/-- The call `fmt.Errorf(pre + "%v", err)`: a fresh error whose text is `pre`
followed by `err.Error()`. -/
def Errorf (pre : String) (err : GoError) : GoError :=
  .errorString (pre ++ err.Error)

/-- The type `sheets.ValueRange`; `Values` is `[][]interface{}` with cells of type `κ`. -/
structure ValueRange (κ : Type) where
  MajorDimension : String := ""
  Range : String := ""
  Values : List (List κ) := []
  deriving DecidableEq, Repr

/-- The type `sheets.UpdateValuesResponse`. -/
structure UpdateValuesResponse where
  SpreadsheetId : String := ""
  UpdatedCells : Nat := 0
  UpdatedColumns : Nat := 0
  UpdatedRange : String := ""
  UpdatedRows : Nat := 0
  deriving DecidableEq, Repr

/-- The type `oauth2.Token`, with the fields that are serialised. `Expiry` is an
instant, counted in nanoseconds from the zero time of Go (January 1 of the year 1,
00:00:00 UTC), so that the zero token has the zero time. The strings are Unicode
text. -/
structure Token where
  AccessToken : String := ""
  TokenType : String := ""
  RefreshToken : String := ""
  Expiry : Int := 0
  deriving DecidableEq, Repr

/-- The type `oauth2.Config`. -/
structure Config where
  ClientID : String := ""
  ClientSecret : String := ""
  AuthURL : String := ""
  TokenURL : String := ""
  RedirectURL : String := ""
  Scopes : List String := []
  deriving DecidableEq, Repr

/-- The `*http.Client` that `config.Client(ctx, tok)` makes: it attaches `tok`
to the requests it sends. `tok` is a pointer and may be nil. -/
structure Client where
  config : Config
  tok : Option Token
  deriving DecidableEq, Repr

/-- The type `sheets.Service`, made by `sheets.New` around a client. -/
structure Service where
  client : Client
  deriving DecidableEq, Repr

/-- An open `*os.File`. -/
abbrev File := Nat

/-! ## Observable events -/

/-- What a run does to the outside, in program order. -/
inductive Event (κ : Type) where
  /-- Text written to standard output by `fmt.Printf`. -/
  | stdout (s : String)
  /-- The line `fmt.Println("trying to update with these values:", values)`. -/
  | printlnValues (values : List (List κ))
  /-- The line `log.Println("No Values.", err)`. -/
  | logNoValues (err : Option GoError)
  /-- The line `log.Println(row)`. -/
  | logRow (row : List κ)
  /-- The line `log.Println(err)`. -/
  | logError (err : GoError)
  | readFile (name : String)
  | mkdirAll (path : String) (perm : Nat)
  | osOpen (name : String)
  | osCreate (name : String)
  | fileRead (f : File)
  | fileWrite (f : File) (data : String)
  | fileClose (f : File)
  | scan
  | exchange (config : Config) (code : String)
  /-- The request `Spreadsheets.Values.Get(spreadsheetId, range).Do()`. -/
  | valuesGet (srv : Service) (spreadsheetId range : String)
  /-- The request
  `Spreadsheets.Values.Update(spreadsheetId, range, body).ValueInputOption(opt).Do()`. -/
  | valuesUpdate (srv : Service) (spreadsheetId range : String) (body : ValueRange κ)
      (valueInputOption : String)
  deriving DecidableEq, Repr

/-- Whether an event is a values-update request to the Sheets service. -/
def Event.isValuesUpdate {κ : Type} : Event κ → Bool
  | .valuesUpdate _ _ _ _ _ => true
  | _ => false

/-- Whether an event is a values-get request to the Sheets service. -/
def Event.isValuesGet {κ : Type} : Event κ → Bool
  | .valuesGet _ _ _ => true
  | _ => false

/-- Whether an event is a read of the operator's input by `fmt.Scan`. -/
def Event.isScan {κ : Type} : Event κ → Bool
  | .scan => true
  | _ => false

/-- Whether an event is a code-for-token exchange with the OAuth2 endpoint. -/
def Event.isExchange {κ : Type} : Event κ → Bool
  | .exchange _ _ => true
  | _ => false

/-! ## The environment -/

/-- The collaborators of the package, over a world state `ω`. An operation that
touches the outside takes the world and gives the next one; the library
functions that compute without touching it are plain functions. -/
structure Env (ω κ : Type) where
  /-- The call `ioutil.ReadFile(name)`. -/
  ReadFile : String → ω → Except GoError String × ω
  /-- The call `os.MkdirAll(path, perm)`. -/
  MkdirAll : String → Nat → ω → Option GoError × ω
  /-- The call `os.Open(name)`. -/
  Open : String → ω → Except GoError File × ω
  /-- The call `os.Create(name)`. -/
  Create : String → ω → Except GoError File × ω
  /-- What a reader gets from an open file up to its end, or up to the read
  error that is returned with it. -/
  Read : File → ω → (String × Option GoError) × ω
  /-- The call `f.Write(data)`. -/
  Write : File → String → ω → Option GoError × ω
  /-- The call `f.Close()`. -/
  Close : File → ω → Option GoError × ω
  /-- The call `fmt.Scan(&code)`: the next space-separated word of standard input. -/
  Scan : ω → Except GoError String × ω
  /-- The call `google.ConfigFromJSON(b, scope...)`. -/
  ConfigFromJSON : String → List String → Except GoError Config
  /-- The call `config.AuthCodeURL(state, oauth2.AccessTypeOffline)`. -/
  AuthCodeURL : Config → String → String
  /-- The call `config.Exchange(oauth2.NoContext, code)`. -/
  Exchange : Config → String → ω → Except GoError Token × ω
  /-- The call `sheets.New(client)`. -/
  sheetsNew : Client → Except GoError Service
  /-- What `json.Marshal` makes of a token, or the error it gives. -/
  jsonMarshal : Token → Except GoError String
  /-- What `json.NewDecoder(r).Decode(t)` does to a zero token `t`, given the
  bytes `r` delivers and the error that ends them: the token as far as it was
  filled, and the decoder's error. -/
  jsonDecode : String → Option GoError → Token × Option GoError
  /-- The request `srv.Spreadsheets.Values.Get(spreadsheetId, range).Do()`: on
  a nil error the response is not nil. -/
  ValuesGet : Service → String → String → ω → Except GoError (ValueRange κ) × ω
  /-- The request
  `srv.Spreadsheets.Values.Update(spreadsheetId, range, body).ValueInputOption(opt).Do()`. -/
  ValuesUpdate : Service → String → String → ValueRange κ → String → ω →
    Except GoError UpdateValuesResponse × ω

/-! ## Runs -/

/-- How a call ends: it returns, or `log.Fatalf` prints `msg` and exits the
process with status 1, or the run time panics. -/
inductive Outcome (α : Type) where
  | ret (a : α)
  | fatal (msg : String)
  | panic (msg : String)
  deriving DecidableEq, Repr

/-- The result of running a call: how it ended, the world it left, and the
events it caused, oldest first. -/
structure Run (ω κ α : Type) where
  out : Outcome α
  world : ω
  events : List (Event κ)

/-- A call of the package: a function of the world it starts in. -/
def Proc (ω κ α : Type) : Type := ω → Run ω κ α

/-- Return without effect. -/
def Proc.pure {ω κ α : Type} (a : α) : Proc ω κ α :=
  fun w => ⟨.ret a, w, []⟩

/-- Run `m`, then `f` on its result; a fatal exit or a panic ends the run. -/
def Proc.bind {ω κ α β : Type} (m : Proc ω κ α) (f : α → Proc ω κ β) : Proc ω κ β :=
  fun w =>
    match m w with
    | ⟨.ret a, w1, es1⟩ =>
      match f a w1 with
      | ⟨o, w2, es2⟩ => ⟨o, w2, es1 ++ es2⟩
    | ⟨.fatal msg, w1, es1⟩ => ⟨.fatal msg, w1, es1⟩
    | ⟨.panic msg, w1, es1⟩ => ⟨.panic msg, w1, es1⟩

/-- Cause one event. -/
def Proc.emit {ω κ : Type} (e : Event κ) : Proc ω κ Unit :=
  fun w => ⟨.ret (), w, [e]⟩

/-- The call `log.Fatalf`: the process exits. -/
def Proc.fatalf {ω κ α : Type} (msg : String) : Proc ω κ α :=
  fun w => ⟨.fatal msg, w, []⟩

/-- A run-time panic. -/
def Proc.panic {ω κ α : Type} (msg : String) : Proc ω κ α :=
  fun w => ⟨.panic msg, w, []⟩

/-- An operation of the environment, with the event that records it. -/
def Proc.call {ω κ α : Type} (e : Event κ) (op : ω → α × ω) : Proc ω κ α :=
  fun w => ⟨.ret (op w).1, (op w).2, [e]⟩

/-- Log each row of a value matrix: the loop `for _, row := range rows { log.Println(row) }`. -/
def logRows {ω κ : Type} : List (List κ) → Proc ω κ Unit
  | [] => Proc.pure ()
  | row :: rest => Proc.bind (Proc.emit (.logRow row)) fun _ => logRows rest

/-! ## The spreadsheet facade -/

/-- The type `Trix`: the document identifier and the service handle. -/
structure Trix where
  spreadsheetID : String
  sheetsService : Service
  deriving DecidableEq, Repr

/-- The verb `%d` of `fmt.Sprintf` on a Go `int` that is not negative. -/
def fmtD (n : Nat) : String := Nat.repr n

/-- The method `Trix.Get`. -/
def Get {ω κ : Type} (env : Env ω κ) (t : Trix) (readRange : String) :
    Proc ω κ (Option (ValueRange κ) × Option GoError) :=
  Proc.bind (Proc.call (.valuesGet t.sheetsService t.spreadsheetID readRange)
      (env.ValuesGet t.sheetsService t.spreadsheetID readRange)) fun r =>
  match r with
  | .error err => Proc.pure (none, some (Errorf "Unable to retrieve data from sheet. " err))
  | .ok resp => Proc.pure (some resp, none)

/-- The method `Trix.Update`. -/
def Update {ω κ : Type} (env : Env ω κ) (t : Trix) (updateRange : String)
    (values : List (List κ)) : Proc ω κ (Option UpdateValuesResponse × Option GoError) :=
  Proc.bind (Proc.emit (.printlnValues values)) fun _ =>
  let valuerange : ValueRange κ := { Values := values }
  Proc.bind (Proc.call
      (.valuesUpdate t.sheetsService t.spreadsheetID updateRange valuerange "USER_ENTERED")
      (env.ValuesUpdate t.sheetsService t.spreadsheetID updateRange valuerange "USER_ENTERED"))
    fun r =>
  match r with
  | .error err => Proc.pure (none, some (Errorf "Unable to UPDATE data ON sheet. " err))
  | .ok resp => Proc.pure (some resp, none)

/-- The method `Trix.InsertRow`. The length of a Go slice of slices is far below
the largest `int`, so `len(readResp.Values) + 1` does not wrap. -/
def InsertRow {ω κ : Type} (env : Env ω κ) (t : Trix) (values : List (List κ)) :
    Proc ω κ (Option UpdateValuesResponse × Option GoError) :=
  let readRange := "RSVP!A:C"
  Proc.bind (Get env t readRange) fun (readResp, err) =>
  match err, readResp with
  | some e, _ =>
    Proc.bind (Proc.emit (.logNoValues (some e))) fun _ => Proc.pure (none, some e)
  | none, none => Proc.panic "invalid memory address or nil pointer dereference"
  | none, some readResp =>
    if readResp.Values.length < 1 then
      Proc.bind (Proc.emit (.logNoValues none)) fun _ => Proc.pure (none, none)
    else
      Proc.bind (logRows readResp.Values) fun _ =>
      let writeRow := readResp.Values.length + 1
      let updateRange := "RSVP!A" ++ fmtD writeRow ++ ":C" ++ fmtD writeRow
      Proc.bind (Update env t updateRange values) fun (updateResp, err) =>
      match err with
      | some e => Proc.bind (Proc.emit (.logError e)) fun _ => Proc.pure (none, some e)
      | none => Proc.pure (updateResp, none)

/-! ## Library functions on strings -/

/-- The function `os.IsPathSeparator` on Unix. -/
def isPathSeparator (c : Char) : Bool := c == '/'

/-- Whether a path element ends here: the input is exhausted or a separator is next
(`r == n || os.IsPathSeparator(path[r])`). -/
def atElementEnd : List Char → Bool
  | [] => true
  | c :: _ => isPathSeparator c

/-- The backtracking of `filepath.Clean` at a `..` element, from the write index
already decremented once: `for out.w > dotdot && !os.IsPathSeparator(out.index(out.w)) { out.w-- }`. -/
def cleanBacktrack (out : List Char) (dotdot : Nat) : Nat → Nat
  | 0 => 0
  | w + 1 =>
    if w + 1 > dotdot && !isPathSeparator (out.getD (w + 1) '/') then cleanBacktrack out dotdot w
    else w + 1

/-- The main loop of `filepath.Clean`: `path` is what is left to read, `out` the
buffer written so far, `dotdot` the index where `..` must stop. Each turn reads
at least one character, so the length of the path is fuel enough. -/
def cleanLoop (rooted : Bool) : Nat → List Char → List Char → Nat → List Char
  | 0, _, out, _ => out
  | fuel + 1, path, out, dotdot =>
    match path with
    | [] => out
    | c :: rest =>
      if isPathSeparator c then
        cleanLoop rooted fuel rest out dotdot
      else if c == '.' && atElementEnd rest then
        cleanLoop rooted fuel rest out dotdot
      else if c == '.' && rest.head? == some '.' && atElementEnd rest.tail then
        if out.length > dotdot then
          cleanLoop rooted fuel rest.tail
            (out.take (cleanBacktrack out dotdot (out.length - 1))) dotdot
        else if !rooted then
          let out1 := (if out.length > 0 then out ++ ['/'] else out) ++ ['.', '.']
          cleanLoop rooted fuel rest.tail out1 out1.length
        else
          cleanLoop rooted fuel rest.tail out dotdot
      else
        let out1 :=
          if (rooted && out.length != 1) || (!rooted && out.length != 0) then out ++ ['/']
          else out
        cleanLoop rooted fuel ((c :: rest).dropWhile fun d => !isPathSeparator d)
          (out1 ++ (c :: rest).takeWhile fun d => !isPathSeparator d) dotdot

/-- The function `filepath.Clean` of the Go standard library on Unix. -/
def filepathClean (path : String) : String :=
  match path.data with
  | [] => "."
  | c :: rest =>
    let rooted := isPathSeparator c
    let out :=
      if rooted then cleanLoop rooted path.length rest ['/'] 1
      else cleanLoop rooted path.length (c :: rest) [] 0
    if out.length == 0 then "." else String.mk out

/-- The function `filepath.Join` of the Go standard library on Unix: the
elements from the first non-empty one on, joined by the separator and cleaned. -/
def filepathJoin : List String → String
  | [] => ""
  | e :: rest =>
    if e != "" then filepathClean ("/".intercalate (e :: rest)) else filepathJoin rest

/-- The upper-case hexadecimal digit of a number below sixteen. -/
def upperhex (n : Nat) : Char := "0123456789ABCDEF".data.getD n '0'

/-- The function `shouldEscape` of `net/url` in the mode of a query component:
letters, digits and `-`, `_`, `.`, `~` stay. -/
def shouldEscapeQuery (c : Char) : Bool :=
  !(c.isAlphanum || c == '-' || c == '_' || c == '.' || c == '~')

/-- The function `url.QueryEscape` of the Go standard library: a space becomes
`+`, any other byte that must be escaped becomes `%XX`. -/
def QueryEscape (s : String) : String :=
  String.mk (s.data.flatMap fun c =>
    if shouldEscapeQuery c then
      if c == ' ' then ['+']
      else (String.utf8EncodeChar c).flatMap fun b =>
        ['%', upperhex (b.toNat / 16), upperhex (b.toNat % 16)]
    else [c])

/-! ## The credential manager -/

/-- The function `tokenCacheFile`. The result of `os.MkdirAll` is dropped. -/
def tokenCacheFile {ω κ : Type} (env : Env ω κ) : Proc ω κ (String × Option GoError) :=
  let tokenCacheDir := filepathJoin ["./", ".credentials"]
  Proc.bind (Proc.call (.mkdirAll tokenCacheDir 0o700) (env.MkdirAll tokenCacheDir 0o700))
    fun _ =>
  Proc.pure
    (filepathJoin [tokenCacheDir, QueryEscape "sheets.googleapis.com-go-quickstart.json"], none)

/-- The function `tokenFromFile`. After the file is open the token returned is
the one the decoder filled, also when the decoder gives an error. -/
def tokenFromFile {ω κ : Type} (env : Env ω κ) (file : String) :
    Proc ω κ (Option Token × Option GoError) :=
  Proc.bind (Proc.call (.osOpen file) (env.Open file)) fun r =>
  match r with
  | .error err => Proc.pure (none, some err)
  | .ok f =>
    Proc.bind (Proc.call (.fileRead f) (env.Read f)) fun (data, readErr) =>
    Proc.bind (Proc.call (.fileClose f) (env.Close f)) fun _ =>
    Proc.pure (some (env.jsonDecode data readErr).1, (env.jsonDecode data readErr).2)

/-- The call `json.NewEncoder(f).Encode(token)` with its result dropped, as
`saveToken` makes it: the token is marshalled, and if that works the text and
a newline are written in one write. -/
def encodeDropped {ω κ : Type} (env : Env ω κ) (f : File) (token : Token) : Proc ω κ Unit :=
  match env.jsonMarshal token with
  | .error _ => Proc.pure ()
  | .ok b =>
    Proc.bind (Proc.call (.fileWrite f (b ++ "\n")) (env.Write f (b ++ "\n"))) fun _ =>
    Proc.pure ()

/-- The function `saveToken`. -/
def saveToken {ω κ : Type} (env : Env ω κ) (file : String) (token : Token) : Proc ω κ Unit :=
  Proc.bind (Proc.emit (.stdout ("Saving credential file to: " ++ file ++ "\n"))) fun _ =>
  Proc.bind (Proc.call (.osCreate file) (env.Create file)) fun r =>
  match r with
  | .error err => Proc.fatalf ("Unable to cache oauth token: " ++ err.Error)
  | .ok f =>
    Proc.bind (encodeDropped env f token) fun _ =>
    Proc.bind (Proc.call (.fileClose f) (env.Close f)) fun _ =>
    Proc.pure ()

/-- The text `getTokenFromWeb` prints before it reads the code. -/
def authPrompt (authURL : String) : String :=
  "Go to the following link in your browser then type the authorization code: \n" ++
    authURL ++ "\n"

/-- The function `getTokenFromWeb`. -/
def getTokenFromWeb {ω κ : Type} (env : Env ω κ) (config : Config) : Proc ω κ Token :=
  let authURL := env.AuthCodeURL config "state-token"
  Proc.bind (Proc.emit (.stdout (authPrompt authURL))) fun _ =>
  Proc.bind (Proc.call .scan env.Scan) fun r =>
  match r with
  | .error err => Proc.fatalf ("Unable to read authorization code " ++ err.Error)
  | .ok code =>
    Proc.bind (Proc.call (.exchange config code) (env.Exchange config code)) fun r =>
    match r with
    | .error err => Proc.fatalf ("Unable to retrieve token from web " ++ err.Error)
    | .ok tok => Proc.pure tok

/-- The function `getClient`. -/
def getClient {ω κ : Type} (env : Env ω κ) (config : Config) : Proc ω κ Client :=
  Proc.bind (tokenCacheFile env) fun (cacheFile, err) =>
  match err with
  | some e => Proc.fatalf ("Unable to get path to cached credential file. " ++ e.Error)
  | none =>
    Proc.bind (tokenFromFile env cacheFile) fun (tok, err) =>
    match err with
    | some _ =>
      Proc.bind (getTokenFromWeb env config) fun tok =>
      Proc.bind (saveToken env cacheFile tok) fun _ =>
      Proc.pure ⟨config, some tok⟩
    | none => Proc.pure ⟨config, tok⟩

/-- The function `NewTrix`. -/
def NewTrix {ω κ : Type} (env : Env ω κ) (spreadsheetID : String) :
    Proc ω κ (Option Trix × Option GoError) :=
  Proc.bind (Proc.call (.readFile "client_secret.json") (env.ReadFile "client_secret.json"))
    fun r =>
  match r with
  | .error err => Proc.pure (none, some (Errorf "Unable to read client secret file: " err))
  | .ok b =>
    match env.ConfigFromJSON b ["https://www.googleapis.com/auth/spreadsheets"] with
    | .error err =>
      Proc.pure (none, some (Errorf "Unable to parse client secret file to config: " err))
    | .ok config =>
      Proc.bind (getClient env config) fun client =>
      match env.sheetsNew client with
      | .error err => Proc.pure (none, some (Errorf "Unable to retrieve Sheets Client " err))
      | .ok srv => Proc.pure (some ⟨spreadsheetID, srv⟩, none)

/-! ## A fake environment

A test double for the collaborators, in memory: a flat file table, a queue of
words on standard input, a token endpoint that accepts any non-empty code and a
Sheets service that holds one table of rows. It is what the closed examples run
on; the general statements do not depend on it. -/

/-- The world of the fake environment. -/
structure FakeWorld where
  /-- The regular files, by name, with their contents. -/
  files : List (String × String) := []
  /-- The names of the files opened so far; a handle is an index into them. -/
  handles : List String := []
  /-- The file system refuses every change (`EROFS`). -/
  readOnly : Bool := false
  /-- No space is left for file data (`ENOSPC`). -/
  diskFull : Bool := false
  /-- The words the operator will type. -/
  stdin : List String := []
  /-- The Sheets service can be reached. -/
  online : Bool := true
  /-- The rows the service holds for the sheet. -/
  rows : List (List String) := []
  /-- The writes the service has accepted: range and values. -/
  written : List (String × List (List String)) := []
  deriving DecidableEq, Repr

/-- Replace or add the contents of a file. -/
def FakeWorld.store (w : FakeWorld) (name data : String) : FakeWorld :=
  { w with files := (name, data) :: w.files.filter fun nd => nd.1 != name }

/-- Whether a string can stand between JSON quotes as it is. -/
def fakeUnescaped (s : String) : Bool :=
  s.data.all fun c => c != '"' && c != '\\' && 32 ≤ c.toNat

/-- The decimal text of an integer. -/
def fakeIntText : Int → String
  | .ofNat n => Nat.repr n
  | .negSucc n => "-" ++ Nat.repr (n + 1)

/-- The fake's JSON text of a token; strings that would need escapes are refused. -/
def fakeMarshal (t : Token) : Except GoError String :=
  if fakeUnescaped t.AccessToken && fakeUnescaped t.TokenType && fakeUnescaped t.RefreshToken then
    .ok ("\x7b\"access_token\":\"" ++ t.AccessToken ++ "\",\"token_type\":\"" ++ t.TokenType ++
      "\",\"refresh_token\":\"" ++ t.RefreshToken ++ "\",\"expiry\":" ++ fakeIntText t.Expiry ++
      "\x7d")
  else .error (.external "json: unsupported value")

/-- The pieces of a text between its double quotes. -/
def splitQuotes : List Char → List (List Char)
  | [] => [[]]
  | c :: rest =>
    match splitQuotes rest with
    | [] => [[]]
    | piece :: pieces => if c == '"' then [] :: piece :: pieces else (c :: piece) :: pieces

/-- The number a run of decimal digits stands for, if it is one. -/
def fakeDigits : List Char → Nat → Option Nat
  | [], acc => some acc
  | c :: rest, acc => if c.isDigit then fakeDigits rest (10 * acc + (c.toNat - 48)) else none

/-- The integer in the tail `:N}` of the fake's token text, up to the closing brace. -/
def fakeExpiry (tail : List Char) : Option Int :=
  match tail.takeWhile fun c => c != '}' with
  | ':' :: '-' :: d :: ds => (fakeDigits (d :: ds) 0).map fun n => -(n : Int)
  | ':' :: d :: ds => (fakeDigits (d :: ds) 0).map fun n => (n : Int)
  | _ => none

/-- The fake's decoder: it reads back the text `fakeMarshal` writes. -/
def fakeDecode (data : String) (readErr : Option GoError) : Token × Option GoError :=
  match splitQuotes data.data with
  | [['{'], k1, [':'], a, [','], k2, [':'], t, [','], k3, [':'], r, [','], k4, tail] =>
    if String.mk k1 == "access_token" && String.mk k2 == "token_type" &&
        String.mk k3 == "refresh_token" && String.mk k4 == "expiry" && tail.contains '}' then
      match fakeExpiry tail with
      | some e => (⟨String.mk a, String.mk t, String.mk r, e⟩, none)
      | none => (⟨String.mk a, String.mk t, String.mk r, 0⟩,
          some (.external "json: cannot unmarshal into Go struct field Token.expiry"))
    else ({}, some (readErr.getD (.external "unexpected EOF")))
  | _ => ({}, some (readErr.getD (.external (if data == "" then "EOF" else "unexpected EOF"))))

/-- The fake environment. -/
def fakeEnv : Env FakeWorld String where
  ReadFile name w :=
    match w.files.lookup name with
    | some data => (.ok data, w)
    | none => (.error (.external ("open " ++ name ++ ": no such file or directory")), w)
  MkdirAll path _ w :=
    if w.readOnly then (some (.external ("mkdir " ++ path ++ ": read-only file system")), w)
    else (none, w)
  Open name w :=
    match w.files.lookup name with
    | some _ => (.ok w.handles.length, { w with handles := w.handles ++ [name] })
    | none => (.error (.external ("open " ++ name ++ ": no such file or directory")), w)
  Create name w :=
    if name == "" then (.error (.external "open : no such file or directory"), w)
    else if w.readOnly then
      (.error (.external ("open " ++ name ++ ": read-only file system")), w)
    else (.ok w.handles.length, { w.store name "" with handles := w.handles ++ [name] })
  Read f w :=
    match w.handles.get? f with
    | some name => ((((w.files.lookup name).getD ""), none), w)
    | none => (("", some (.external "read: bad file descriptor")), w)
  Write f data w :=
    match w.handles.get? f with
    | some name =>
      if w.diskFull then (some (.external ("write " ++ name ++ ": no space left on device")), w)
      else (none, w.store name ((w.files.lookup name).getD "" ++ data))
    | none => (some (.external "write: bad file descriptor"), w)
  Close _ w := (none, w)
  Scan w :=
    match w.stdin with
    | code :: rest => (.ok code, { w with stdin := rest })
    | [] => (.error (.external "EOF"), w)
  ConfigFromJSON b scopes :=
    if b == "" then .error (.external "unexpected end of JSON input")
    else .ok { ClientID := b, AuthURL := "https://accounts.example/auth",
               TokenURL := "https://accounts.example/token", Scopes := scopes }
  AuthCodeURL config state :=
    config.AuthURL ++ "?access_type=offline&client_id=" ++ config.ClientID ++ "&state=" ++ state
  Exchange _ code w :=
    if code == "" then (.error (.external "oauth2: cannot fetch token: 400 Bad Request"), w)
    else (.ok { AccessToken := "access-" ++ code, TokenType := "Bearer",
                RefreshToken := "refresh-" ++ code, Expiry := 3600000000000 }, w)
  sheetsNew client := .ok ⟨client⟩
  jsonMarshal := fakeMarshal
  jsonDecode := fakeDecode
  ValuesGet _ _ range w :=
    if w.online then (.ok { MajorDimension := "ROWS", Range := range, Values := w.rows }, w)
    else (.error (.external "googleapi: Error 503: The service is currently unavailable."), w)
  ValuesUpdate _ spreadsheetId range body _ w :=
    if w.online then
      (.ok { SpreadsheetId := spreadsheetId, UpdatedRange := range,
             UpdatedRows := body.Values.length,
             UpdatedColumns := (body.Values.map List.length).foldl max 0,
             UpdatedCells := (body.Values.map List.length).sum },
       { w with rows := w.rows ++ body.Values, written := w.written ++ [(range, body.Values)] })
    else (.error (.external "googleapi: Error 503: The service is currently unavailable."), w)

/-- The configuration the fake `ConfigFromJSON` makes of the secret file `client-7`. -/
def fakeConfig : Config :=
  { ClientID := "client-7", AuthURL := "https://accounts.example/auth",
    TokenURL := "https://accounts.example/token",
    Scopes := ["https://www.googleapis.com/auth/spreadsheets"] }

/-- A Trix on the fake service, as `NewTrix "doc-1"` makes it from the cached token. -/
def fakeTrix : Trix :=
  { spreadsheetID := "doc-1",
    sheetsService := ⟨⟨fakeConfig, some { AccessToken := "cached" }⟩⟩ }

/-- The cache file name that `tokenCacheFile` computes. -/
def cachePath : String := ".credentials/sheets.googleapis.com-go-quickstart.json"

/-- A first run: no cache file yet, and the operator will type the code `4/abc`. -/
def firstRunWorld : FakeWorld := { stdin := ["4/abc"] }

/-- A later run: the cache file holds a token. -/
def cachedWorld : FakeWorld :=
  { files := [(cachePath,
      "\x7b\"access_token\":\"cached\",\"token_type\":\"\",\"refresh_token\":\"\"," ++
        "\"expiry\":0\x7d\n")] }

/-- The token the fake endpoint gives for the code `4/abc`. -/
def webToken : Token :=
  { AccessToken := "access-4/abc", TokenType := "Bearer", RefreshToken := "refresh-4/abc",
    Expiry := 3600000000000 }

/-! ## JSON strings as `encoding/json` writes and reads them -/

/-- The lower-case hexadecimal digit of a number below sixteen (`hex` in `encoding/json`). -/
def hexDigit (n : Nat) : Char := "0123456789abcdef".data.getD n '0'

/-- How `encoding/json` writes one character inside a string, with HTML escaping on as
it is in an `Encoder` (`appendString`, Go 1.22 and later): the quote and the backslash
get a backslash, backspace, form feed, newline, carriage return and tab their letter,
the other control characters, `<`, `>`, `&`, U+2028 and U+2029 the form `\uXXXX`. -/
def jsonEscapeChar (c : Char) : List Char :=
  if c = '"' then ['\\', '"']
  else if c = '\\' then ['\\', '\\']
  else if c = Char.ofNat 8 then ['\\', 'b']
  else if c = Char.ofNat 12 then ['\\', 'f']
  else if c = '\n' then ['\\', 'n']
  else if c = '\r' then ['\\', 'r']
  else if c = '\t' then ['\\', 't']
  else if c.toNat < 0x20 ∨ c = '<' ∨ c = '>' ∨ c = '&' ∨ c.toNat = 0x2028 ∨ c.toNat = 0x2029 then
    ['\\', 'u', hexDigit (c.toNat / 4096), hexDigit (c.toNat / 256 % 16),
      hexDigit (c.toNat / 16 % 16), hexDigit (c.toNat % 16)]
  else [c]

/-- The value of a hexadecimal digit. -/
def hexVal (c : Char) : Option Nat :=
  if '0' ≤ c ∧ c ≤ '9' then some (c.toNat - 48)
  else if 'a' ≤ c ∧ c ≤ 'f' then some (c.toNat - 87)
  else if 'A' ≤ c ∧ c ≤ 'F' then some (c.toNat - 55)
  else none

/-- The number four hexadecimal digits stand for (`getu4` in `encoding/json`). -/
def getu4 (a b c d : Char) : Option Nat :=
  match hexVal a, hexVal b, hexVal c, hexVal d with
  | some x, some y, some z, some w => some (((x * 16 + y) * 16 + z) * 16 + w)
  | _, _, _, _ => none

/-- The character a one-letter escape of a JSON string stands for. -/
def unescapeSimple (e : Char) : Option Char :=
  if e = '"' then some '"'
  else if e = '\\' then some '\\'
  else if e = '/' then some '/'
  else if e = 'b' then some (Char.ofNat 8)
  else if e = 'f' then some (Char.ofNat 12)
  else if e = 'n' then some '\n'
  else if e = 'r' then some '\r'
  else if e = 't' then some '\t'
  else none

/-- Read a JSON string after its opening quote, as the scanner and `unquote` of
`encoding/json` do: the result is the text between the quotes, the string it stands
for, and what follows the closing quote. A control character, an unknown escape or a
missing closing quote gives nothing. A `\u` escape of a surrogate is joined with the
low surrogate that follows it, and becomes U+FFFD when none follows. Each turn reads
at least one character, so fuel above the length of the input is enough. -/
def scanString : Nat → List Char → Option (List Char × List Char × List Char)
  | 0, _ => none
  | fuel + 1, cs =>
    match cs with
    | [] => none
    | c :: rest =>
      if c = '"' then some ([], [], rest)
      else if c = '\\' then
        match rest with
        | [] => none
        | e :: rest1 =>
          if e = 'u' then
            match rest1 with
            | h1 :: h2 :: h3 :: h4 :: rest2 =>
              match getu4 h1 h2 h3 h4 with
              | none => none
              | some n =>
                if 0xD800 ≤ n ∧ n < 0xE000 then
                  match rest2 with
                  | b :: u :: l1 :: l2 :: l3 :: l4 :: rest3 =>
                    match getu4 l1 l2 l3 l4 with
                    | some m =>
                      if b = '\\' ∧ u = 'u' ∧ n < 0xDC00 ∧ 0xDC00 ≤ m ∧ m < 0xE000 then
                        (scanString fuel rest3).map fun r =>
                          (c :: e :: h1 :: h2 :: h3 :: h4 :: b :: u :: l1 :: l2 :: l3 :: l4 :: r.1,
                           Char.ofNat (0x10000 + (n - 0xD800) * 0x400 + (m - 0xDC00)) :: r.2.1,
                           r.2.2)
                      else
                        (scanString fuel rest2).map fun r =>
                          (c :: e :: h1 :: h2 :: h3 :: h4 :: r.1, Char.ofNat 0xFFFD :: r.2.1, r.2.2)
                    | none =>
                      (scanString fuel rest2).map fun r =>
                        (c :: e :: h1 :: h2 :: h3 :: h4 :: r.1, Char.ofNat 0xFFFD :: r.2.1, r.2.2)
                  | _ =>
                    (scanString fuel rest2).map fun r =>
                      (c :: e :: h1 :: h2 :: h3 :: h4 :: r.1, Char.ofNat 0xFFFD :: r.2.1, r.2.2)
                else
                  (scanString fuel rest2).map fun r =>
                    (c :: e :: h1 :: h2 :: h3 :: h4 :: r.1, Char.ofNat n :: r.2.1, r.2.2)
            | _ => none
          else
            match unescapeSimple e with
            | none => none
            | some d => (scanString fuel rest1).map fun r => (c :: e :: r.1, d :: r.2.1, r.2.2)
      else if c.toNat < 0x20 then none
      else (scanString fuel rest).map fun r => (c :: r.1, c :: r.2.1, r.2.2)

/-! ## Times in the RFC 3339 form -/

/-- The function `isLeap` of package `time`. -/
def isLeap (y : Nat) : Bool := y % 4 == 0 && (y % 100 != 0 || y % 400 == 0)

/-- The number of days of a year. -/
def daysInYear (y : Nat) : Nat := if isLeap y then 366 else 365

/-- The function `daysIn` of package `time`: the number of days of a month (1 to 12). -/
def daysIn (y m : Nat) : Nat :=
  if m = 2 then (if isLeap y then 29 else 28)
  else if m = 4 ∨ m = 6 ∨ m = 9 ∨ m = 11 then 30
  else 31

/-- The number of days from January 1 of the year 0 to January 1 of the year `y`. -/
def daysBeforeYear : Nat → Nat
  | 0 => 0
  | y + 1 => daysBeforeYear y + daysInYear y

/-- The number of days of the year `y` before the first of month `m` (1 to 12). -/
def daysBeforeMonth (y : Nat) : Nat → Nat
  | 0 => 0
  | m + 1 => if m = 0 then 0 else daysBeforeMonth y m + daysIn y m

/-- The year a day falls in, and the day's number within it, counting years up from `y`. -/
def yearOfDay : Nat → Nat → Nat → Nat × Nat
  | 0, y, d => (y, d)
  | fuel + 1, y, d =>
    if d < daysInYear y then (y, d) else yearOfDay fuel (y + 1) (d - daysInYear y)

/-- The month a day of the year falls in, and the day's number within it, counting
months up from `m`. -/
def monthOfDay (y : Nat) : Nat → Nat → Nat → Nat × Nat
  | 0, m, d => (m, d)
  | fuel + 1, m, d =>
    if d < daysIn y m then (m, d) else monthOfDay y fuel (m + 1) (d - daysIn y m)

/-- The decimal digit for the last digit of a number. -/
def digitChar (d : Nat) : Char := Char.ofNat (48 + d % 10)

/-- The value of a decimal digit. -/
def digitVal (c : Char) : Option Nat :=
  if '0' ≤ c ∧ c ≤ '9' then some (c.toNat - 48) else none

/-- A number below a hundred in two digits. -/
def pad2 (n : Nat) : List Char := [digitChar (n / 10), digitChar n]

/-- A number below ten thousand in four digits. -/
def pad4 (n : Nat) : List Char :=
  [digitChar (n / 1000), digitChar (n / 100), digitChar (n / 10), digitChar n]

/-- A number below a thousand million in nine digits. -/
def pad9 (n : Nat) : List Char :=
  [digitChar (n / 100000000), digitChar (n / 10000000), digitChar (n / 1000000),
   digitChar (n / 100000), digitChar (n / 10000), digitChar (n / 1000), digitChar (n / 100),
   digitChar (n / 10), digitChar n]

/-- A run of digits without its trailing zeros. -/
def trimZeros : List Char → List Char
  | [] => []
  | c :: cs => if trimZeros cs = [] ∧ c = '0' then [] else c :: trimZeros cs

/-- The fraction of a second as the layout `.999999999` prints it: nothing for zero,
otherwise a point and nine digits without trailing zeros. -/
def formatNano (ns : Nat) : List Char :=
  if ns = 0 then [] else '.' :: trimZeros (pad9 ns)

/-- The nanoseconds of a day. -/
def nanosPerDay : Int := 86400000000000

/-- The number of days of the years 0 to 9999. -/
def maxDay0 : Int := 3652425

/-- The text `Time.MarshalJSON` puts between the quotes: the instant in the RFC 3339
form with nanoseconds, in UTC. A year outside 0 to 9999 gives nothing, as the method
then returns an error. A Go time also carries a zone; the model keeps the instant only. -/
def timeText (i : Int) : Option (List Char) :=
  let day0 := i / nanosPerDay + 366
  if 0 ≤ day0 ∧ day0 < maxDay0 then
    let yd := yearOfDay 10000 0 day0.toNat
    let md := monthOfDay yd.1 12 1 yd.2
    let rem := (i % nanosPerDay).toNat
    let secs := rem / 1000000000
    some (pad4 yd.1 ++ '-' :: pad2 md.1 ++ '-' :: pad2 (md.2 + 1) ++ 'T' :: pad2 (secs / 3600) ++
      ':' :: pad2 (secs / 60 % 60) ++ ':' :: pad2 (secs % 60) ++ formatNano (rem % 1000000000) ++
      ['Z'])
  else none

/-- The number two digits stand for. -/
def num2 (a b : Char) : Option Nat :=
  match digitVal a, digitVal b with
  | some x, some y => some (10 * x + y)
  | _, _ => none

/-- The number four digits stand for. -/
def num4 (a b c d : Char) : Option Nat :=
  match num2 a b, num2 c d with
  | some x, some y => some (100 * x + y)
  | _, _ => none

/-- The nanoseconds a run of fraction digits stands for; digits after the ninth count
for nothing. -/
def fracNanos : List Char → Nat → Nat
  | [], _ => 0
  | c :: cs, scale => (c.toNat - 48) * scale + fracNanos cs (scale / 10)

/-- The zone of an RFC 3339 text, in seconds east of UTC: `Z`, or a sign, hours and
minutes, with the bounds `parseRFC3339` of package `time` puts on them. -/
def parseZone : List Char → Option Int
  | ['Z'] => some 0
  | [sg, a, b, c, d, e] =>
    match num2 a b, num2 d e with
    | some hr, some mm =>
      if (sg = '+' ∨ sg = '-') ∧ c = ':' ∧ hr ≤ 24 ∧ mm ≤ 60 then
        some (if sg = '-' then -(((hr * 60 + mm) * 60 : Nat) : Int) else (((hr * 60 + mm) * 60 : Nat) : Int))
      else none
    | _, _ => none
  | _ => none

/-- The fraction of a second of an RFC 3339 text, if there is one, and what follows it. -/
def parseFraction : List Char → Nat × List Char
  | '.' :: d :: more =>
    if (digitVal d).isSome then
      (fracNanos ((d :: more).takeWhile fun c => (digitVal c).isSome) 100000000,
       (d :: more).dropWhile fun c => (digitVal c).isSome)
    else (0, '.' :: d :: more)
  | cs => (0, cs)

/-- The instant `Time.UnmarshalJSON` reads from the text between the quotes: the
RFC 3339 form as `parseRFC3339` of package `time` takes it, with the month, the day of
the month and the clock in range. The few looser forms `time.Parse` lets through
besides are refused. -/
def parseTime : List Char → Option Int
  | y1 :: y2 :: y3 :: y4 :: c1 :: m1 :: m2 :: c2 :: d1 :: d2 :: c3 :: h1 :: h2 :: c4 :: n1 ::
      n2 :: c5 :: s1 :: s2 :: rest =>
    match num4 y1 y2 y3 y4, num2 m1 m2, num2 d1 d2, num2 h1 h2, num2 n1 n2, num2 s1 s2 with
    | some y, some m, some d, some hh, some mi, some ss =>
      if c1 = '-' ∧ c2 = '-' ∧ c3 = 'T' ∧ c4 = ':' ∧ c5 = ':' ∧ 1 ≤ m ∧ m ≤ 12 ∧ 1 ≤ d ∧
          d ≤ daysIn y m ∧ hh ≤ 23 ∧ mi ≤ 59 ∧ ss ≤ 59 then
        match parseZone (parseFraction rest).2 with
        | some off =>
          some ((((daysBeforeYear y + daysBeforeMonth y m + (d - 1) : Nat) : Int) - 366) *
              nanosPerDay +
            (((hh * 3600 + mi * 60 + ss) * 1000000000 + (parseFraction rest).1 : Nat) : Int) -
            off * 1000000000)
        | none => none
      else none
    | _, _, _, _, _, _ => none
  | _ => none

/-! ## JSON values and the encoding of a token -/

/-- A JSON value. A string keeps the text between its quotes next to the string it
stands for. -/
inductive JSON where
  | null
  | bool (b : Bool)
  | number (text : List Char)
  | string (raw val : List Char)
  | array (items : List JSON)
  | object (members : List (List Char × JSON))

/-- The white space of JSON. -/
def isSpace (c : Char) : Bool := c == ' ' || c == '\t' || c == '\r' || c == '\n'

/-- Drop leading white space. -/
def skipSpace (cs : List Char) : List Char := cs.dropWhile isSpace

/-- Whether a character is a decimal digit. -/
def isDigit (c : Char) : Bool := (digitVal c).isSome

/-- The exponent of a JSON number, if there is one, and what follows it. -/
def scanExponent (cs : List Char) : Option (List Char × List Char) :=
  match cs with
  | e :: rest =>
    if e = 'e' ∨ e = 'E' then
      match rest with
      | sg :: more =>
        if sg = '+' ∨ sg = '-' then
          if (more.takeWhile isDigit).isEmpty then none
          else some (e :: sg :: more.takeWhile isDigit, more.dropWhile isDigit)
        else if (rest.takeWhile isDigit).isEmpty then none
        else some (e :: rest.takeWhile isDigit, rest.dropWhile isDigit)
      | [] => none
    else some ([], cs)
  | [] => some ([], cs)

/-- The fraction of a JSON number, if there is one, and what follows it. -/
def scanFraction (cs : List Char) : Option (List Char × List Char) :=
  match cs with
  | '.' :: rest =>
    if (rest.takeWhile isDigit).isEmpty then none
    else some ('.' :: rest.takeWhile isDigit, rest.dropWhile isDigit)
  | _ => some ([], cs)

/-- The integer part of a JSON number: a zero, or digits that do not start with zero. -/
def scanInteger (cs : List Char) : Option (List Char × List Char) :=
  match cs with
  | d :: rest =>
    if d = '0' then some (['0'], rest)
    else if isDigit d then some (d :: rest.takeWhile isDigit, rest.dropWhile isDigit)
    else none
  | [] => none

/-- The text of a JSON number and what follows it. -/
def scanNumber (cs : List Char) : Option (List Char × List Char) :=
  let signed := match cs with
    | '-' :: rest => (['-'], rest)
    | _ => ([], cs)
  match scanInteger signed.2 with
  | none => none
  | some (ip, r1) =>
    match scanFraction r1 with
    | none => none
    | some (fp, r2) =>
      match scanExponent r2 with
      | none => none
      | some (ep, r3) => some (signed.1 ++ ip ++ fp ++ ep, r3)

/-- The members of a JSON object after its opening brace, up to the closing brace;
`pv` reads a value. -/
def parseMembers (pv : List Char → Option (JSON × List Char)) :
    Nat → List Char → Option (List (List Char × JSON) × List Char)
  | 0, _ => none
  | fuel + 1, cs =>
    match skipSpace cs with
    | q :: rest =>
      if q = '"' then
        match scanString (rest.length + 1) rest with
        | none => none
        | some (_, key, rest1) =>
          match skipSpace rest1 with
          | colon :: rest2 =>
            if colon = ':' then
              match pv rest2 with
              | none => none
              | some (v, rest3) =>
                match skipSpace rest3 with
                | sep :: rest4 =>
                  if sep = ',' then
                    (parseMembers pv fuel rest4).map fun r => ((key, v) :: r.1, r.2)
                  else if sep = '}' then some ([(key, v)], rest4)
                  else none
                | [] => none
            else none
          | [] => none
      else none
    | [] => none

/-- The elements of a JSON array after its opening bracket, up to the closing bracket;
`pv` reads a value. -/
def parseElements (pv : List Char → Option (JSON × List Char)) :
    Nat → List Char → Option (List JSON × List Char)
  | 0, _ => none
  | fuel + 1, cs =>
    match pv cs with
    | none => none
    | some (v, rest) =>
      match skipSpace rest with
      | sep :: rest1 =>
        if sep = ',' then (parseElements pv fuel rest1).map fun r => (v :: r.1, r.2)
        else if sep = ']' then some ([v], rest1)
        else none
      | [] => none

/-- Read one JSON value and give what follows it. The fuel bounds the nesting; the
length of the input is enough. -/
def parseValue : Nat → List Char → Option (JSON × List Char)
  | 0, _ => none
  | fuel + 1, cs =>
    match skipSpace cs with
    | [] => none
    | c :: rest =>
      if c = '"' then
        (scanString (rest.length + 1) rest).map fun r => (.string r.1 r.2.1, r.2.2)
      else if c = '{' then
        match skipSpace rest with
        | close :: rest1 =>
          if close = '}' then some (.object [], rest1)
          else (parseMembers (parseValue fuel) (rest.length + 1) rest).map fun r =>
            (.object r.1, r.2)
        | [] => none
      else if c = '[' then
        match skipSpace rest with
        | close :: rest1 =>
          if close = ']' then some (.array [], rest1)
          else (parseElements (parseValue fuel) (rest.length + 1) rest).map fun r =>
            (.array r.1, r.2)
        | [] => none
      else if c = 't' then
        match rest with
        | 'r' :: 'u' :: 'e' :: rest1 => some (.bool true, rest1)
        | _ => none
      else if c = 'f' then
        match rest with
        | 'a' :: 'l' :: 's' :: 'e' :: rest1 => some (.bool false, rest1)
        | _ => none
      else if c = 'n' then
        match rest with
        | 'u' :: 'l' :: 'l' :: rest1 => some (.null, rest1)
        | _ => none
      else (scanNumber (c :: rest)).map fun r => (.number r.1, r.2)

/-- The case folding `encoding/json` matches keys with: ASCII letters in upper case,
and the long s and the Kelvin sign as `S` and `K`. -/
def foldRune (c : Char) : Char :=
  if 'a' ≤ c ∧ c ≤ 'z' then Char.ofNat (c.toNat - 32)
  else if c.toNat = 0x17F then 'S'
  else if c.toNat = 0x212A then 'K'
  else c

/-- The fields of `oauth2.Token` that are written to JSON. -/
inductive TokenField where
  | accessToken
  | tokenType
  | refreshToken
  | expiry
  deriving DecidableEq, Repr

/-- The JSON key of a field, from the tags of `oauth2.Token`. -/
def TokenField.name : TokenField → String
  | .accessToken => "access_token"
  | .tokenType => "token_type"
  | .refreshToken => "refresh_token"
  | .expiry => "expiry"

/-- The fields of `oauth2.Token` in the order of the struct. -/
def tokenFields : List TokenField := [.accessToken, .tokenType, .refreshToken, .expiry]

/-- The field a key of the object goes to: the one whose name is the key, or else the
first whose name matches it without regard to case. -/
def findField (key : List Char) : Option TokenField :=
  match tokenFields.find? fun f => f.name.data = key with
  | some f => some f
  | none => tokenFields.find? fun f => f.name.data.map foldRune = key.map foldRune

/-- The name `encoding/json` gives the kind of a value in its errors. -/
def JSON.kind : JSON → String
  | .null => "null"
  | .bool _ => "bool"
  | .number _ => "number"
  | .string _ _ => "string"
  | .array _ => "array"
  | .object _ => "object"

/-- How storing one value ends: done, done with an error to report at the end, or
stopped by an error. -/
inductive Stored where
  | ok (tok : Token)
  | saved (tok : Token) (err : GoError)
  | abort (tok : Token) (err : GoError)

/-- Store one value into a field of the token, as `encoding/json` does with
`oauth2.Token`: `null` changes nothing, a string goes into a string field, the expiry
goes through `Time.UnmarshalJSON` with the text between the quotes as it stands, a
value of another kind into a string field is an error that is kept while decoding goes
on, and an error of `Time.UnmarshalJSON` ends the decoding. -/
def storeField (tok : Token) (f : TokenField) (v : JSON) : Stored :=
  match f, v with
  | _, .null => .ok tok
  | .accessToken, .string _ val => .ok { tok with AccessToken := String.mk val }
  | .tokenType, .string _ val => .ok { tok with TokenType := String.mk val }
  | .refreshToken, .string _ val => .ok { tok with RefreshToken := String.mk val }
  | .expiry, .string raw _ =>
    match parseTime raw with
    | some i => .ok { tok with Expiry := i }
    | none => .abort tok (.external ("parsing time \"" ++ String.mk raw ++ "\" as " ++
        "\"2006-01-02T15:04:05Z07:00\": cannot parse"))
  | .expiry, _ => .abort tok (.external "Time.UnmarshalJSON: input is not a JSON string")
  | f, v => .saved tok (.external ("json: cannot unmarshal " ++ v.kind ++
      " into Go struct field Token." ++ f.name ++ " of type string"))

/-- Fill a token from the members of an object, in their order. -/
def fillMembers (tok : Token) (saved : Option GoError) :
    List (List Char × JSON) → Token × Option GoError
  | [] => (tok, saved)
  | (key, v) :: rest =>
    match findField key with
    | none => fillMembers tok saved rest
    | some f =>
      match storeField tok f v with
      | .ok tok1 => fillMembers tok1 saved rest
      | .saved tok1 err => fillMembers tok1 (saved.orElse fun _ => some err) rest
      | .abort tok1 err => (tok1, some err)

/-- Decode one JSON value into a zero token. -/
def unmarshalToken (v : JSON) : Token × Option GoError :=
  match v with
  | .null => ({}, none)
  | .object members => fillMembers {} none members
  | v => ({}, some (.external ("json: cannot unmarshal " ++ v.kind ++
      " into Go value of type oauth2.Token")))

/-- The call `json.NewDecoder(r).Decode(t)` on a zero token: the first JSON value of
the input is decoded and what follows it is left. Without a complete value the read
error is returned if there is one, `EOF` when nothing but white space came, and a
syntax error otherwise (its text is not modelled in detail). -/
def goDecode (data : String) (readErr : Option GoError) : Token × Option GoError :=
  match parseValue (data.data.length + 1) data.data with
  | some (v, _) => unmarshalToken v
  | none =>
    match readErr with
    | some e => ({}, some e)
    | none =>
      if (skipSpace data.data).isEmpty then ({}, some (.external "EOF"))
      else ({}, some (.external "invalid character or unexpected end of JSON input"))

/-- A string as `encoding/json` writes it. -/
def jsonQuote (s : List Char) : List Char := '"' :: s.flatMap jsonEscapeChar ++ ['"']

/-- The members of an object as `encoding/json` writes them: key, colon, value, with
commas between. -/
def renderMembers : List (List Char × List Char) → List Char
  | [] => []
  | [(k, v)] => '"' :: k ++ '"' :: ':' :: v
  | (k, v) :: m :: ms => '"' :: k ++ '"' :: ':' :: v ++ ',' :: renderMembers (m :: ms)

/-- The members `encoding/json` writes for an `oauth2.Token`, from its tags:
`access_token` always, `token_type` and `refresh_token` unless empty, `expiry` always
(a struct is never empty), with the text of `Time.MarshalJSON`. -/
def tokenMembers (t : Token) (expiry : List Char) : List (List Char × List Char) :=
  [("access_token".data, jsonQuote t.AccessToken.data)] ++
  (if t.TokenType = "" then [] else [("token_type".data, jsonQuote t.TokenType.data)]) ++
  (if t.RefreshToken = "" then [] else [("refresh_token".data, jsonQuote t.RefreshToken.data)]) ++
  [("expiry".data, '"' :: expiry ++ ['"'])]

/-- The function `json.Marshal` on an `oauth2.Token`. -/
def goMarshal (t : Token) : Except GoError String :=
  match timeText t.Expiry with
  | none => .error (.external ("json: error calling MarshalJSON for type time.Time: " ++
      "Time.MarshalJSON: year outside of range [0,9999]"))
  | some txt => .ok (String.mk ('{' :: renderMembers (tokenMembers t txt) ++ ['}']))

/-! ## A file tree and the host environment -/

/-- The pieces of a path between its slashes. -/
def splitPath : List Char → List (List Char)
  | [] => [[]]
  | c :: cs =>
    match splitPath cs with
    | [] => [[]]
    | piece :: pieces => if c = '/' then [] :: piece :: pieces else (c :: piece) :: pieces

/-- A place in the file tree: the names from the root down. -/
abbrev Place := List (List Char)

/-- An open file of the file tree: the place it was opened at and whether it may be written. -/
structure Handle where
  place : Place
  writable : Bool
  deriving DecidableEq, Repr

/-- A file tree: the directories and the regular files that exist, the working
directory of the process, the files it has opened, and two conditions of the
volume. The root always exists. Permission bits are left out: the process may
enter every directory and read and write every file that is there. -/
structure FileTree where
  cwd : Place := []
  dirs : List Place := []
  files : List (Place × String) := []
  handles : List Handle := []
  /-- The volume refuses every change (`EROFS`). -/
  readOnly : Bool := false
  /-- The volume has no room for file data (`ENOSPC`). -/
  diskFull : Bool := false
  deriving DecidableEq, Repr

/-- Whether a place is a directory. -/
def FileTree.isDir (fs : FileTree) (p : Place) : Bool := p.isEmpty || fs.dirs.contains p

/-- The contents of the regular file at a place, if there is one. -/
def FileTree.fileAt (fs : FileTree) (p : Place) : Option String := fs.files.lookup p

/-- Put contents at a place, in place of what was there. -/
def FileTree.store (fs : FileTree) (p : Place) (data : String) : FileTree :=
  { fs with files := (p, data) :: fs.files.filter fun e => e.1 != p }

/-- Enter a newly opened file in the table of open files; its handle is the index. -/
def FileTree.withHandle (fs : FileTree) (h : Handle) : FileTree :=
  { fs with handles := fs.handles ++ [h] }

/-- One step of a path walk: an empty name and `.` stay, `..` goes up, a name goes down. -/
def stepPlace (p : Place) (name : List Char) : Place :=
  if name = [] ∨ name = ['.'] then p
  else if name = ['.', '.'] then p.dropLast
  else p ++ [name]

/-- Walk the names of a path from a place; every place that is walked through has
to be a directory. -/
def FileTree.walk (fs : FileTree) : Place → List (List Char) → Option Place
  | cur, [] => some cur
  | cur, name :: rest => if fs.isDir cur then fs.walk (stepPlace cur name) rest else none

/-- The place a path names: an empty path names nothing, a path that starts with
a slash is walked from the root, any other from the working directory. -/
def FileTree.resolve (fs : FileTree) (name : String) : Option Place :=
  if name = "" then none
  else fs.walk (if name.data.head? = some '/' then [] else fs.cwd) (splitPath name.data)

/-- The call `os.Create(name)`: the file is made or emptied and opened for writing. -/
def FileTree.create (fs : FileTree) (name : String) : Except GoError File × FileTree :=
  match fs.resolve name with
  | none => (.error (.external ("open " ++ name ++ ": no such file or directory")), fs)
  | some p =>
    if fs.isDir p then (.error (.external ("open " ++ name ++ ": is a directory")), fs)
    else if fs.readOnly then
      (.error (.external ("open " ++ name ++ ": read-only file system")), fs)
    else (.ok fs.handles.length, (fs.store p "").withHandle ⟨p, true⟩)

/-- The call `os.Open(name)`: a file or directory that exists is opened for reading. -/
def FileTree.openFile (fs : FileTree) (name : String) : Except GoError File × FileTree :=
  match fs.resolve name with
  | none => (.error (.external ("open " ++ name ++ ": no such file or directory")), fs)
  | some p =>
    if (fs.fileAt p).isSome || fs.isDir p then
      (.ok fs.handles.length, fs.withHandle ⟨p, false⟩)
    else (.error (.external ("open " ++ name ++ ": no such file or directory")), fs)

/-- What a reader gets from a newly opened file: all of its contents. -/
def FileTree.read (fs : FileTree) (f : File) : (String × Option GoError) × FileTree :=
  match fs.handles.get? f with
  | none => (("", some (.external "read: file already closed")), fs)
  | some h =>
    match fs.fileAt h.place with
    | some data => ((data, none), fs)
    | none => (("", some (.external "read: is a directory")), fs)

/-- The call `f.Write(data)` on a file opened by `os.Create`: the data goes to the end. -/
def FileTree.write (fs : FileTree) (f : File) (data : String) : Option GoError × FileTree :=
  match fs.handles.get? f with
  | none => (some (.external "write: file already closed"), fs)
  | some h =>
    if !h.writable then (some (.external "write: bad file descriptor"), fs)
    else if fs.diskFull then (some (.external "write: no space left on device"), fs)
    else
      match fs.fileAt h.place with
      | some old => (none, fs.store h.place (old ++ data))
      | none => (some (.external "write: bad file descriptor"), fs)

/-- The directories `os.MkdirAll` makes along a path, or the error that stops it. -/
def mkdirWalk (path : String) : FileTree → Place → List (List Char) → Option GoError × FileTree
  | fs, _, [] => (none, fs)
  | fs, cur, name :: rest =>
    if (fs.fileAt (stepPlace cur name)).isSome then
      (some (.external ("mkdir " ++ path ++ ": not a directory")), fs)
    else if fs.isDir (stepPlace cur name) then mkdirWalk path fs (stepPlace cur name) rest
    else if fs.readOnly then
      (some (.external ("mkdir " ++ path ++ ": read-only file system")), fs)
    else mkdirWalk path { fs with dirs := stepPlace cur name :: fs.dirs } (stepPlace cur name) rest

/-- The call `os.MkdirAll(path, perm)`. -/
def FileTree.mkdirAll (fs : FileTree) (path : String) : Option GoError × FileTree :=
  if path = "" then (some (.external "mkdir : no such file or directory"), fs)
  else mkdirWalk path fs (if path.data.head? = some '/' then [] else fs.cwd)
    (splitPath path.data)

/-- The call `ioutil.ReadFile(name)`. -/
def FileTree.readFile (fs : FileTree) (name : String) : Except GoError String :=
  match fs.resolve name with
  | none => .error (.external ("open " ++ name ++ ": no such file or directory"))
  | some p =>
    match fs.fileAt p with
    | some data => .ok data
    | none =>
      if fs.isDir p then .error (.external ("read " ++ name ++ ": is a directory"))
      else .error (.external ("open " ++ name ++ ": no such file or directory"))

/-- The world of the host environment: a file tree, and for the operator, the token
endpoint and the Sheets service the world of the fake. -/
structure HostWorld where
  fs : FileTree := {}
  net : FakeWorld := {}
  deriving DecidableEq, Repr

/-- The host environment: files live in a file tree, tokens are encoded and decoded
as `encoding/json` does it, and the rest is the fake. -/
def hostEnv : Env HostWorld String where
  ReadFile name w := (w.fs.readFile name, w)
  MkdirAll path _ w := ((w.fs.mkdirAll path).1, { w with fs := (w.fs.mkdirAll path).2 })
  Open name w := ((w.fs.openFile name).1, { w with fs := (w.fs.openFile name).2 })
  Create name w := ((w.fs.create name).1, { w with fs := (w.fs.create name).2 })
  Read f w := ((w.fs.read f).1, { w with fs := (w.fs.read f).2 })
  Write f data w := ((w.fs.write f data).1, { w with fs := (w.fs.write f data).2 })
  Close _ w := (none, w)
  Scan w := ((fakeEnv.Scan w.net).1, { w with net := (fakeEnv.Scan w.net).2 })
  ConfigFromJSON := fakeEnv.ConfigFromJSON
  AuthCodeURL := fakeEnv.AuthCodeURL
  Exchange config code w :=
    ((fakeEnv.Exchange config code w.net).1,
     { w with net := (fakeEnv.Exchange config code w.net).2 })
  sheetsNew := fakeEnv.sheetsNew
  jsonMarshal := goMarshal
  jsonDecode := goDecode
  ValuesGet srv id range w :=
    ((fakeEnv.ValuesGet srv id range w.net).1,
     { w with net := (fakeEnv.ValuesGet srv id range w.net).2 })
  ValuesUpdate srv id range body opt w :=
    ((fakeEnv.ValuesUpdate srv id range body opt w.net).1,
     { w with net := (fakeEnv.ValuesUpdate srv id range body opt w.net).2 })

/-- The world `tokenCacheFile` leaves on an empty volume: the directory `.credentials`
exists in the working directory. -/
def cacheDirWorld : HostWorld := (tokenCacheFile hostEnv { }).world

/-- A token as the endpoint gives it; its expiry is 2025-11-06 04:26:40.120034 UTC. -/
def sampleToken : Token :=
  { AccessToken := "ya29.a0<Af&H>", TokenType := "Bearer", RefreshToken := "1//0g\"x\"",
    Expiry := 63898000000120034000 }

/-- The text `json.Marshal` gives for `sampleToken`. -/
def sampleTokenText : String :=
  "\x7b\"access_token\":\"ya29.a0\\u003cAf\\u0026H\\u003e\",\"token_type\":\"Bearer\"," ++
    "\"refresh_token\":\"1//0g\\\"x\\\"\"," ++
    "\"expiry\":\"2025-11-06T04:26:40.120034Z\"\x7d"

/-! # Theorems -/

section Facade

variable {ω κ : Type}

/-- A step that returns hands its result and world to what follows. -/
theorem Proc.bind_ret {α β : Type} (m : Proc ω κ α) (f : α → Proc ω κ β) (w w1 : ω) (a : α)
    (es : List (Event κ)) (h : m w = ⟨.ret a, w1, es⟩) :
    Proc.bind m f w = ⟨(f a w1).out, (f a w1).world, es ++ (f a w1).events⟩ := by
  simp [Proc.bind, h]

/-- A step that ends the process ends the run. -/
theorem Proc.bind_fatal {α β : Type} (m : Proc ω κ α) (f : α → Proc ω κ β) (w w1 : ω)
    (msg : String) (es : List (Event κ)) (h : m w = ⟨.fatal msg, w1, es⟩) :
    Proc.bind m f w = ⟨.fatal msg, w1, es⟩ := by
  simp [Proc.bind, h]

theorem Get_run_error (env : Env ω κ) (t : Trix) (r : String) (w w1 : ω) (e : GoError)
    (h : env.ValuesGet t.sheetsService t.spreadsheetID r w = (.error e, w1)) :
    Get env t r w =
      ⟨.ret (none, some (Errorf "Unable to retrieve data from sheet. " e)), w1,
       [.valuesGet t.sheetsService t.spreadsheetID r]⟩ := by
  simp [Get, Proc.bind, Proc.call, h, Proc.pure]

theorem Get_run_ok (env : Env ω κ) (t : Trix) (r : String) (w w1 : ω) (resp : ValueRange κ)
    (h : env.ValuesGet t.sheetsService t.spreadsheetID r w = (.ok resp, w1)) :
    Get env t r w =
      ⟨.ret (some resp, none), w1, [.valuesGet t.sheetsService t.spreadsheetID r]⟩ := by
  simp [Get, Proc.bind, Proc.call, h, Proc.pure]

theorem Update_run_error (env : Env ω κ) (t : Trix) (r : String) (values : List (List κ))
    (w w1 : ω) (e : GoError)
    (h : env.ValuesUpdate t.sheetsService t.spreadsheetID r { Values := values }
      "USER_ENTERED" w = (.error e, w1)) :
    Update env t r values w =
      ⟨.ret (none, some (Errorf "Unable to UPDATE data ON sheet. " e)), w1,
       [.printlnValues values,
        .valuesUpdate t.sheetsService t.spreadsheetID r { Values := values } "USER_ENTERED"]⟩ := by
  simp [Update, Proc.bind, Proc.call, Proc.emit, h, Proc.pure]

theorem Update_run_ok (env : Env ω κ) (t : Trix) (r : String) (values : List (List κ))
    (w w1 : ω) (resp : UpdateValuesResponse)
    (h : env.ValuesUpdate t.sheetsService t.spreadsheetID r { Values := values }
      "USER_ENTERED" w = (.ok resp, w1)) :
    Update env t r values w =
      ⟨.ret (some resp, none), w1,
       [.printlnValues values,
        .valuesUpdate t.sheetsService t.spreadsheetID r { Values := values } "USER_ENTERED"]⟩ := by
  simp [Update, Proc.bind, Proc.call, Proc.emit, h, Proc.pure]

/-- The events of `Update` do not depend on the answer of the service. -/
theorem Update_events (env : Env ω κ) (t : Trix) (r : String) (values : List (List κ)) (w : ω) :
    (Update env t r values w).events =
      [.printlnValues values,
       .valuesUpdate t.sheetsService t.spreadsheetID r { Values := values } "USER_ENTERED"] := by
  rcases h : env.ValuesUpdate t.sheetsService t.spreadsheetID r { Values := values }
    "USER_ENTERED" w with ⟨res, w1⟩
  cases res with
  | error e => rw [Update_run_error env t r values w w1 e h]
  | ok resp => rw [Update_run_ok env t r values w w1 resp h]

/-- The events of `Get` do not depend on the answer of the service. -/
theorem Get_events (env : Env ω κ) (t : Trix) (r : String) (w : ω) :
    (Get env t r w).events = [.valuesGet t.sheetsService t.spreadsheetID r] := by
  rcases h : env.ValuesGet t.sheetsService t.spreadsheetID r w with ⟨res, w1⟩
  cases res with
  | error e => rw [Get_run_error env t r w w1 e h]
  | ok resp => rw [Get_run_ok env t r w w1 resp h]

theorem logRows_run (rows : List (List κ)) (w : ω) :
    logRows rows w = (⟨.ret (), w, rows.map Event.logRow⟩ : Run ω κ Unit) := by
  induction rows with
  | nil => rfl
  | cons row rest ih => simp [logRows, Proc.bind, Proc.emit, ih]

theorem filter_update_logRows (rows : List (List κ)) :
    (rows.map Event.logRow).filter Event.isValuesUpdate = [] := by
  induction rows with
  | nil => rfl
  | cons row rest ih => simp [Event.isValuesUpdate]

/-- What the service answered when `Get` returns a nil error. -/
theorem Get_out_ok (env : Env ω κ) (t : Trix) (r : String) (w : ω) (resp : Option (ValueRange κ))
    (h : (Get env t r w).out = .ret (resp, none)) :
    ∃ v w1, resp = some v ∧ env.ValuesGet t.sheetsService t.spreadsheetID r w = (.ok v, w1) := by
  rcases hg : env.ValuesGet t.sheetsService t.spreadsheetID r w with ⟨res, w1⟩
  cases res with
  | error e => rw [Get_run_error env t r w w1 e hg] at h; simp at h
  | ok v =>
    rw [Get_run_ok env t r w w1 v hg] at h
    simp only [Outcome.ret.injEq, Prod.mk.injEq, and_true] at h
    exact ⟨v, w1, h.symm, rfl⟩

/-- What the service answered when `Get` returns an error. -/
theorem Get_out_error (env : Env ω κ) (t : Trix) (r : String) (w : ω)
    (resp : Option (ValueRange κ)) (e : GoError)
    (h : (Get env t r w).out = .ret (resp, some e)) :
    ∃ e0 w1, resp = none ∧ e = Errorf "Unable to retrieve data from sheet. " e0 ∧
      env.ValuesGet t.sheetsService t.spreadsheetID r w = (.error e0, w1) := by
  rcases hg : env.ValuesGet t.sheetsService t.spreadsheetID r w with ⟨res, w1⟩
  cases res with
  | error e0 =>
    rw [Get_run_error env t r w w1 e0 hg] at h
    simp only [Outcome.ret.injEq, Prod.mk.injEq, Option.some.injEq] at h
    exact ⟨e0, w1, h.1.symm, h.2.symm, rfl⟩
  | ok v => rw [Get_run_ok env t r w w1 v hg] at h; simp at h

/-- The run of `InsertRow` when the read fails. -/
theorem InsertRow_run_read_error (env : Env ω κ) (t : Trix) (values : List (List κ))
    (w w1 : ω) (e0 : GoError)
    (h : env.ValuesGet t.sheetsService t.spreadsheetID "RSVP!A:C" w = (.error e0, w1)) :
    InsertRow env t values w =
      ⟨.ret (none, some (Errorf "Unable to retrieve data from sheet. " e0)), w1,
       [.valuesGet t.sheetsService t.spreadsheetID "RSVP!A:C",
        .logNoValues (some (Errorf "Unable to retrieve data from sheet. " e0))]⟩ := by
  simp [InsertRow, Proc.bind, Get_run_error env t "RSVP!A:C" w w1 e0 h, Proc.emit, Proc.pure]

/-- The run of `InsertRow` when the read gives no rows. -/
theorem InsertRow_run_no_rows (env : Env ω κ) (t : Trix) (values : List (List κ))
    (w w1 : ω) (resp : ValueRange κ)
    (h : env.ValuesGet t.sheetsService t.spreadsheetID "RSVP!A:C" w = (.ok resp, w1))
    (h0 : resp.Values.length < 1) :
    InsertRow env t values w =
      ⟨.ret (none, none), w1,
       [.valuesGet t.sheetsService t.spreadsheetID "RSVP!A:C", .logNoValues none]⟩ := by
  simp [InsertRow, Proc.bind, Get_run_ok env t "RSVP!A:C" w w1 resp h, Proc.emit, Proc.pure, h0]

/-- The events of `InsertRow` when the read gives at least one row. -/
theorem InsertRow_events_rows (env : Env ω κ) (t : Trix) (values : List (List κ))
    (w w1 : ω) (resp : ValueRange κ)
    (h : env.ValuesGet t.sheetsService t.spreadsheetID "RSVP!A:C" w = (.ok resp, w1))
    (h1 : 1 ≤ resp.Values.length) :
    ∃ tail : List (Event κ), tail.filter Event.isValuesUpdate = [] ∧
      (InsertRow env t values w).events =
        Event.valuesGet t.sheetsService t.spreadsheetID "RSVP!A:C" ::
          (resp.Values.map Event.logRow ++
            (Update env t
              ("RSVP!A" ++ fmtD (resp.Values.length + 1) ++ ":C" ++
                fmtD (resp.Values.length + 1)) values w1).events ++ tail) := by
  have hlt : ¬ resp.Values.length < 1 := by omega
  rcases hu : env.ValuesUpdate t.sheetsService t.spreadsheetID
      ("RSVP!A" ++ fmtD (resp.Values.length + 1) ++ ":C" ++ fmtD (resp.Values.length + 1))
      { Values := values } "USER_ENTERED" w1 with ⟨res, w2⟩
  cases res with
  | error e =>
    refine ⟨[.logError (Errorf "Unable to UPDATE data ON sheet. " e)], rfl, ?_⟩
    simp [InsertRow, Proc.bind, Get_run_ok env t "RSVP!A:C" w w1 resp h, Proc.emit, Proc.pure,
      hlt, logRows_run, Update_run_error env t _ values w1 w2 e hu]
  | ok r =>
    refine ⟨[], rfl, ?_⟩
    simp [InsertRow, Proc.bind, Get_run_ok env t "RSVP!A:C" w w1 resp h, Proc.pure,
      hlt, logRows_run, Update_run_ok env t _ values w1 w2 r hu]

end Facade

/-! ## How the credential manager runs -/

section Credentials

variable {ω κ : Type}

/-- The fuel of `cleanLoop` is enough: with any fuel that covers the path the loop
gives the same buffer, so it always runs until the path is read to its end. -/
theorem cleanLoop_fuel (rooted : Bool) (fuel1 : Nat) :
    ∀ (fuel2 : Nat) (path out : List Char) (dotdot : Nat),
      path.length ≤ fuel1 → path.length ≤ fuel2 →
      cleanLoop rooted fuel1 path out dotdot = cleanLoop rooted fuel2 path out dotdot := by
  induction fuel1 with
  | zero =>
    intro fuel2 path out dotdot h1 _
    have hp : path = [] := List.length_eq_zero.mp (Nat.le_zero.mp h1)
    subst hp
    cases fuel2 <;> rfl
  | succ f1 ih =>
    intro fuel2 path out dotdot h1 h2
    cases path with
    | nil => cases fuel2 <;> rfl
    | cons c rest =>
      cases fuel2 with
      | zero => simp at h2
      | succ f2 =>
        have hr1 : rest.length ≤ f1 := by simpa using h1
        have hr2 : rest.length ≤ f2 := by simpa using h2
        have ht : rest.tail.length ≤ rest.length := by simp
        have hd : ¬ isPathSeparator c = true →
            ((c :: rest).dropWhile fun d => !isPathSeparator d).length ≤ rest.length := by
          intro hc
          simp only [List.dropWhile_cons, hc, Bool.not_false, ite_true]
          exact (List.dropWhile_sublist _).length_le
        simp only [cleanLoop]
        split_ifs with hsep
        all_goals
          first
          | exact ih f2 _ _ _ hr1 hr2
          | exact ih f2 _ _ _ (le_trans ht hr1) (le_trans ht hr2)
          | exact ih f2 _ _ _ (le_trans (hd hsep) hr1) (le_trans (hd hsep) hr2)

theorem join_cache_dir : filepathJoin ["./", ".credentials"] = ".credentials" := by decide

theorem queryEscape_cache_name :
    QueryEscape "sheets.googleapis.com-go-quickstart.json" =
      "sheets.googleapis.com-go-quickstart.json" := by decide

theorem join_cache_file :
    filepathJoin [".credentials", "sheets.googleapis.com-go-quickstart.json"] = cachePath := by
  decide

/-- The run of `tokenCacheFile`: one `os.MkdirAll`, then the fixed name with a nil error. -/
theorem tokenCacheFile_run (env : Env ω κ) (w : ω) :
    tokenCacheFile env w =
      ⟨.ret (cachePath, none), (env.MkdirAll ".credentials" 0o700 w).2,
       [.mkdirAll ".credentials" 0o700]⟩ := by
  simp [tokenCacheFile, Proc.bind, Proc.call, Proc.pure, join_cache_dir,
    queryEscape_cache_name, join_cache_file]

theorem tokenFromFile_run_open_error (env : Env ω κ) (file : String) (w w1 : ω) (e : GoError)
    (h : env.Open file w = (.error e, w1)) :
    tokenFromFile env file w = ⟨.ret (none, some e), w1, [.osOpen file]⟩ := by
  simp [tokenFromFile, Proc.bind, Proc.call, Proc.pure, h]

theorem tokenFromFile_run_open_ok (env : Env ω κ) (file : String) (w w1 : ω) (f : File)
    (h : env.Open file w = (.ok f, w1)) :
    tokenFromFile env file w =
      ⟨.ret (some (env.jsonDecode (env.Read f w1).1.1 (env.Read f w1).1.2).1,
          (env.jsonDecode (env.Read f w1).1.1 (env.Read f w1).1.2).2),
       (env.Close f (env.Read f w1).2).2,
       [.osOpen file, .fileRead f, .fileClose f]⟩ := by
  simp [tokenFromFile, Proc.bind, Proc.call, Proc.pure, h]

/-- Loading never reads the operator's input and never talks to the token endpoint. -/
theorem tokenFromFile_quiet (env : Env ω κ) (file : String) (w : ω) :
    (∃ a, (tokenFromFile env file w).out = .ret a) ∧
    (tokenFromFile env file w).events.countP Event.isScan = 0 ∧
    (tokenFromFile env file w).events.countP Event.isExchange = 0 := by
  rcases h : env.Open file w with ⟨res, w1⟩
  cases res with
  | error e => rw [tokenFromFile_run_open_error env file w w1 e h]; exact ⟨⟨_, rfl⟩, rfl, rfl⟩
  | ok f => rw [tokenFromFile_run_open_ok env file w w1 f h]; exact ⟨⟨_, rfl⟩, rfl, rfl⟩

theorem encodeDropped_run (env : Env ω κ) (f : File) (token : Token) (w : ω) :
    (encodeDropped env f token w).out = .ret () ∧
    (encodeDropped env f token w).events.countP Event.isScan = 0 ∧
    (encodeDropped env f token w).events.countP Event.isExchange = 0 := by
  unfold encodeDropped
  cases env.jsonMarshal token with
  | error e => exact ⟨rfl, rfl, rfl⟩
  | ok b => exact ⟨rfl, rfl, rfl⟩

/-- If `os.Create` fails, `saveToken` ends the process. -/
theorem saveToken_run_create_error (env : Env ω κ) (file : String) (token : Token) (w w1 : ω)
    (e : GoError) (h : env.Create file w = (.error e, w1)) :
    saveToken env file token w =
      ⟨.fatal ("Unable to cache oauth token: " ++ e.Error), w1,
       [.stdout ("Saving credential file to: " ++ file ++ "\n"), .osCreate file]⟩ := by
  simp [saveToken, Proc.bind, Proc.call, Proc.emit, Proc.fatalf, h]

/-- If `os.Create` succeeds, `saveToken` returns, whatever becomes of the encoding. -/
theorem saveToken_run_create_ok (env : Env ω κ) (file : String) (token : Token) (w w1 : ω)
    (f : File) (h : env.Create file w = (.ok f, w1)) :
    saveToken env file token w =
      ⟨.ret (), (env.Close f (encodeDropped env f token w1).world).2,
       .stdout ("Saving credential file to: " ++ file ++ "\n") :: .osCreate file ::
         ((encodeDropped env f token w1).events ++ [.fileClose f])⟩ := by
  have henc := (encodeDropped_run env f token w1).1
  rcases hrun : encodeDropped env f token w1 with ⟨o, w2, es⟩
  rw [hrun] at henc
  simp only at henc
  subst henc
  simp [saveToken, Proc.bind, Proc.call, Proc.emit, Proc.pure, h, hrun]

/-- Saving never reads the operator's input and never talks to the token endpoint. -/
theorem saveToken_quiet (env : Env ω κ) (file : String) (token : Token) (w : ω) :
    (saveToken env file token w).events.countP Event.isScan = 0 ∧
    (saveToken env file token w).events.countP Event.isExchange = 0 := by
  rcases h : env.Create file w with ⟨res, w1⟩
  cases res with
  | error e => rw [saveToken_run_create_error env file token w w1 e h]; exact ⟨rfl, rfl⟩
  | ok f =>
    rw [saveToken_run_create_ok env file token w w1 f h]
    have h2 := (encodeDropped_run env f token w1).2
    simp [List.countP_cons, List.countP_append, h2.1, h2.2, Event.isScan, Event.isExchange]

theorem getTokenFromWeb_run_scan_error (env : Env ω κ) (config : Config) (w w1 : ω)
    (e : GoError) (h : env.Scan w = (.error e, w1)) :
    getTokenFromWeb env config w =
      ⟨.fatal ("Unable to read authorization code " ++ e.Error), w1,
       [.stdout (authPrompt (env.AuthCodeURL config "state-token")), .scan]⟩ := by
  simp [getTokenFromWeb, Proc.bind, Proc.call, Proc.emit, Proc.fatalf, h]

theorem getTokenFromWeb_run_exchange_error (env : Env ω κ) (config : Config) (w w1 w2 : ω)
    (code : String) (e : GoError) (h : env.Scan w = (.ok code, w1))
    (hx : env.Exchange config code w1 = (.error e, w2)) :
    getTokenFromWeb env config w =
      ⟨.fatal ("Unable to retrieve token from web " ++ e.Error), w2,
       [.stdout (authPrompt (env.AuthCodeURL config "state-token")), .scan,
        .exchange config code]⟩ := by
  simp [getTokenFromWeb, Proc.bind, Proc.call, Proc.emit, Proc.fatalf, h, hx]

theorem getTokenFromWeb_run_ok (env : Env ω κ) (config : Config) (w w1 w2 : ω)
    (code : String) (tok : Token) (h : env.Scan w = (.ok code, w1))
    (hx : env.Exchange config code w1 = (.ok tok, w2)) :
    getTokenFromWeb env config w =
      ⟨.ret tok, w2,
       [.stdout (authPrompt (env.AuthCodeURL config "state-token")), .scan,
        .exchange config code]⟩ := by
  simp [getTokenFromWeb, Proc.bind, Proc.call, Proc.emit, Proc.pure, h, hx]

/-- Every run of `getTokenFromWeb` prints the prompt and then reads the operator's
input exactly once; it returns a token or ends the process with one of its two
messages. -/
theorem getTokenFromWeb_shape (env : Env ω κ) (config : Config) (w : ω) :
    (getTokenFromWeb env config w).events.countP Event.isScan = 1 ∧
    (∃ rest, (getTokenFromWeb env config w).events =
      .stdout (authPrompt (env.AuthCodeURL config "state-token")) :: .scan :: rest) ∧
    ((∃ tok, (getTokenFromWeb env config w).out = .ret tok) ∨
      (∃ x, (getTokenFromWeb env config w).out =
        .fatal ("Unable to read authorization code " ++ x)) ∨
      (∃ x, (getTokenFromWeb env config w).out =
        .fatal ("Unable to retrieve token from web " ++ x))) := by
  rcases h : env.Scan w with ⟨res, w1⟩
  cases res with
  | error e =>
    rw [getTokenFromWeb_run_scan_error env config w w1 e h]
    exact ⟨rfl, ⟨_, rfl⟩, Or.inr (Or.inl ⟨_, rfl⟩)⟩
  | ok code =>
    rcases hx : env.Exchange config code w1 with ⟨res, w2⟩
    cases res with
    | error e =>
      rw [getTokenFromWeb_run_exchange_error env config w w1 w2 code e h hx]
      exact ⟨rfl, ⟨_, rfl⟩, Or.inr (Or.inr ⟨_, rfl⟩)⟩
    | ok tok =>
      rw [getTokenFromWeb_run_ok env config w w1 w2 code tok h hx]
      exact ⟨rfl, ⟨_, rfl⟩, Or.inl ⟨_, rfl⟩⟩

/-- The run of `getClient` when loading the cache file succeeds. -/
theorem getClient_run_hit (env : Env ω κ) (config : Config) (w : ω) (tok : Option Token)
    (h : (tokenFromFile env cachePath (env.MkdirAll ".credentials" 0o700 w).2).out =
      .ret (tok, none)) :
    getClient env config w =
      ⟨.ret ⟨config, tok⟩,
       (tokenFromFile env cachePath (env.MkdirAll ".credentials" 0o700 w).2).world,
       .mkdirAll ".credentials" 0o700 ::
         (tokenFromFile env cachePath (env.MkdirAll ".credentials" 0o700 w).2).events⟩ := by
  rcases hl : tokenFromFile env cachePath (env.MkdirAll ".credentials" 0o700 w).2 with
    ⟨o, wl, el⟩
  rw [hl] at h
  simp only at h
  subst h
  simp [getClient, Proc.bind, tokenCacheFile_run, hl, Proc.pure]

/-- The run of `getClient` when loading the cache file fails: the token comes from
`getTokenFromWeb`, run in the world loading left, and is saved. -/
theorem getClient_run_miss (env : Env ω κ) (config : Config) (w : ω) (tok : Option Token)
    (e : GoError)
    (h : (tokenFromFile env cachePath (env.MkdirAll ".credentials" 0o700 w).2).out =
      .ret (tok, some e)) :
    getClient env config w =
      ⟨((Proc.bind (getTokenFromWeb env config) fun webTok =>
          Proc.bind (saveToken env cachePath webTok) fun _ =>
          (Proc.pure ⟨config, some webTok⟩ : Proc ω κ Client))
          (tokenFromFile env cachePath (env.MkdirAll ".credentials" 0o700 w).2).world).out,
       ((Proc.bind (getTokenFromWeb env config) fun webTok =>
          Proc.bind (saveToken env cachePath webTok) fun _ =>
          (Proc.pure ⟨config, some webTok⟩ : Proc ω κ Client))
          (tokenFromFile env cachePath (env.MkdirAll ".credentials" 0o700 w).2).world).world,
       .mkdirAll ".credentials" 0o700 ::
         ((tokenFromFile env cachePath (env.MkdirAll ".credentials" 0o700 w).2).events ++
          ((Proc.bind (getTokenFromWeb env config) fun webTok =>
            Proc.bind (saveToken env cachePath webTok) fun _ =>
            (Proc.pure ⟨config, some webTok⟩ : Proc ω κ Client))
            (tokenFromFile env cachePath
              (env.MkdirAll ".credentials" 0o700 w).2).world).events)⟩ := by
  rcases hl : tokenFromFile env cachePath (env.MkdirAll ".credentials" 0o700 w).2 with
    ⟨o, wl, el⟩
  rw [hl] at h
  simp only at h
  subst h
  unfold getClient
  rw [Proc.bind_ret _ _ _ _ _ _ (tokenCacheFile_run env w)]
  simp only []
  rw [Proc.bind_ret _ _ _ _ _ _ hl]
  simp

/-- A run of `saveToken` returns or ends the process with its one message. -/
theorem saveToken_shape (env : Env ω κ) (file : String) (token : Token) (w : ω) :
    (saveToken env file token w).out = .ret () ∨
      ∃ x, (saveToken env file token w).out = .fatal ("Unable to cache oauth token: " ++ x) := by
  rcases h : env.Create file w with ⟨res, w1⟩
  cases res with
  | error e => rw [saveToken_run_create_error env file token w w1 e h]; exact Or.inr ⟨_, rfl⟩
  | ok f => rw [saveToken_run_create_ok env file token w w1 f h]; exact Or.inl rfl

/-- Two texts differ when their fixed heads differ within the first `n` characters. -/
theorem append_ne_of_take_ne (a b x y : String) (n : Nat) (ha : n ≤ a.data.length)
    (hb : n ≤ b.data.length) (hne : a.data.take n ≠ b.data.take n) : a ++ x ≠ b ++ y := by
  intro h
  have hd := congrArg (fun z : String => z.data.take n) h
  simp only [String.data_append, List.take_append_of_le_length ha,
    List.take_append_of_le_length hb] at hd
  exact hne hd

/-- What `NewTrix` returns holds the identifier it was given. -/
theorem NewTrix_spreadsheetID (env : Env ω κ) (id : String) (w : ω) (t : Trix)
    (e : Option GoError) (h : (NewTrix env id w).out = .ret (some t, e)) :
    t.spreadsheetID = id := by
  unfold NewTrix at h
  rw [Proc.bind_ret _ _ w (env.ReadFile "client_secret.json" w).2
    (env.ReadFile "client_secret.json" w).1 [.readFile "client_secret.json"] rfl] at h
  simp only at h
  cases hr : (env.ReadFile "client_secret.json" w).1 with
  | error err => simp [hr, Proc.pure] at h
  | ok b =>
    simp only [hr] at h
    cases hc : env.ConfigFromJSON b ["https://www.googleapis.com/auth/spreadsheets"] with
    | error err => simp [hc, Proc.pure] at h
    | ok config =>
      simp only [hc] at h
      rcases hg : getClient env config (env.ReadFile "client_secret.json" w).2 with ⟨o, w2, es⟩
      cases o with
      | ret client =>
        rw [Proc.bind_ret _ _ _ _ _ _ hg] at h
        cases hs : env.sheetsNew client with
        | error err => simp [hs, Proc.pure] at h
        | ok srv =>
          simp [hs, Proc.pure] at h
          rw [← h.1]
      | fatal msg => simp [Proc.bind, hg] at h
      | panic msg => simp [Proc.bind, hg] at h

end Credentials

/-- Claim C1. If the read of `RSVP!A:C` that `InsertRow` starts with succeeds and gives
`n ≥ 1` rows, then `InsertRow values` sends exactly one values-update request: its
range is `RSVP!A`, the decimal of `n + 1`, `:C`, the decimal of `n + 1`, and its
body holds `values` as given. -/
theorem insertRow_writes_row_after_last {ω κ : Type} (env : Env ω κ) (t : Trix)
    (values : List (List κ)) (w : ω) (resp : ValueRange κ) (n : Nat)
    (hread : (Get env t "RSVP!A:C" w).out = .ret (some resp, none))
    (hrows : resp.Values.length = n) (hn : 1 ≤ n) :
    (InsertRow env t values w).events.filter Event.isValuesUpdate =
      [.valuesUpdate t.sheetsService t.spreadsheetID
        ("RSVP!A" ++ fmtD (n + 1) ++ ":C" ++ fmtD (n + 1)) { Values := values }
        "USER_ENTERED"] := by
  obtain ⟨v, w1, hv, hget⟩ := Get_out_ok env t "RSVP!A:C" w (some resp) hread
  cases hv
  subst hrows
  obtain ⟨tail, htail, hev⟩ := InsertRow_events_rows env t values w w1 resp hget hn
  rw [hev, Update_events]
  simp [List.filter_cons, List.filter_append, filter_update_logRows, htail,
    Event.isValuesUpdate]

/-- Claim C1, on the fake service: two rows are read, so the one request goes to `RSVP!A3:C3`. -/
theorem insertRow_writes_row_after_last_witness :
    (Get fakeEnv fakeTrix "RSVP!A:C"
        { rows := [["a", "b", "c"], ["d", "e", "f"]] }).out =
      .ret (some { MajorDimension := "ROWS", Range := "RSVP!A:C",
                   Values := [["a", "b", "c"], ["d", "e", "f"]] }, none) ∧
    (InsertRow fakeEnv fakeTrix [["x", "y", "z"]]
        { rows := [["a", "b", "c"], ["d", "e", "f"]] }).events.filter Event.isValuesUpdate =
      [.valuesUpdate fakeTrix.sheetsService "doc-1" "RSVP!A3:C3"
        { Values := [["x", "y", "z"]] } "USER_ENTERED"] :=
  ⟨rfl, insertRow_writes_row_after_last fakeEnv fakeTrix [["x", "y", "z"]]
    { rows := [["a", "b", "c"], ["d", "e", "f"]] }
    { MajorDimension := "ROWS", Range := "RSVP!A:C",
      Values := [["a", "b", "c"], ["d", "e", "f"]] } 2 rfl rfl (by decide)⟩

/-- Claim C2, at the failing input: the fake service answers the read with no rows
and no error, and `InsertRow` takes its failure exit (it logs `No Values.` and sends
no update) but returns a nil result with a nil error. -/
theorem insertRow_no_rows_returns_nil_error :
    (Get fakeEnv fakeTrix "RSVP!A:C" { rows := [] }).out =
      .ret (some { MajorDimension := "ROWS", Range := "RSVP!A:C", Values := [] }, none) ∧
    (InsertRow fakeEnv fakeTrix [["x", "y", "z"]] { rows := [] }).out = .ret (none, none) ∧
    (InsertRow fakeEnv fakeTrix [["x", "y", "z"]] { rows := [] }).events =
      [.valuesGet fakeTrix.sheetsService "doc-1" "RSVP!A:C", .logNoValues none] :=
  ⟨rfl, rfl, rfl⟩

/-- Claim C7. If the read that `InsertRow` starts with fails, or succeeds with zero
rows, then `InsertRow values` sends no values-update request at all. -/
theorem insertRow_sends_no_update_without_rows {ω κ : Type} (env : Env ω κ) (t : Trix)
    (values : List (List κ)) (w : ω) (resp : Option (ValueRange κ)) (err : Option GoError)
    (hread : (Get env t "RSVP!A:C" w).out = .ret (resp, err))
    (hfail : err ≠ none ∨ ∃ v, resp = some v ∧ v.Values.length = 0) :
    (InsertRow env t values w).events.filter Event.isValuesUpdate = [] ∧
      ∀ ev ∈ (InsertRow env t values w).events, ev.isValuesUpdate = false := by
  have key : (InsertRow env t values w).events.filter Event.isValuesUpdate = [] := by
    cases err with
    | some e =>
      obtain ⟨e0, w1, _, _, hget⟩ := Get_out_error env t "RSVP!A:C" w resp e hread
      rw [InsertRow_run_read_error env t values w w1 e0 hget]
      rfl
    | none =>
      obtain ⟨v, w1, hv, hget⟩ := Get_out_ok env t "RSVP!A:C" w resp hread
      rcases hfail with h | ⟨v2, hv2, hlen⟩
      · exact absurd rfl h
      · rw [hv] at hv2
        cases hv2
        rw [InsertRow_run_no_rows env t values w w1 v hget (by omega)]
        rfl
  refine ⟨key, fun ev hev => ?_⟩
  cases hb : ev.isValuesUpdate with
  | false => rfl
  | true =>
    have hmem : ev ∈ (InsertRow env t values w).events.filter Event.isValuesUpdate :=
      List.mem_filter.mpr ⟨hev, hb⟩
    rw [key] at hmem
    cases hmem

/-- Claim C7, on the fake service: once with the service unreachable, once with an empty sheet. -/
theorem insertRow_sends_no_update_without_rows_witness :
    (InsertRow fakeEnv fakeTrix [["x", "y", "z"]]
        { online := false }).events.filter Event.isValuesUpdate = [] ∧
    (InsertRow fakeEnv fakeTrix [["x", "y", "z"]]
        { rows := [] }).events.filter Event.isValuesUpdate = [] :=
  ⟨(insertRow_sends_no_update_without_rows fakeEnv fakeTrix [["x", "y", "z"]] { online := false }
      none (some (Errorf "Unable to retrieve data from sheet. "
        (.external "googleapi: Error 503: The service is currently unavailable.")))
      rfl (Or.inl (by simp))).1,
   (insertRow_sends_no_update_without_rows fakeEnv fakeTrix [["x", "y", "z"]] { rows := [] }
      (some { MajorDimension := "ROWS", Range := "RSVP!A:C", Values := [] }) none
      rfl (Or.inr ⟨_, rfl, rfl⟩)).1⟩

/-- Claim C8. If `Get` fails with the error `e` on the read that `InsertRow` starts
with, then `InsertRow` returns a nil result together with that same error `e`. -/
theorem insertRow_returns_the_error_of_get {ω κ : Type} (env : Env ω κ) (t : Trix)
    (values : List (List κ)) (w : ω) (resp : Option (ValueRange κ)) (e : GoError)
    (hread : (Get env t "RSVP!A:C" w).out = .ret (resp, some e)) :
    (InsertRow env t values w).out = .ret (none, some e) := by
  obtain ⟨e0, w1, _, he, hget⟩ := Get_out_error env t "RSVP!A:C" w resp e hread
  rw [InsertRow_run_read_error env t values w w1 e0 hget, he]

/-- Claim C8, on the fake service when it cannot be reached. -/
theorem insertRow_returns_the_error_of_get_witness :
    (Get fakeEnv fakeTrix "RSVP!A:C" { online := false }).out =
      .ret (none, some (.errorString ("Unable to retrieve data from sheet. " ++
        "googleapi: Error 503: The service is currently unavailable."))) ∧
    (InsertRow fakeEnv fakeTrix [["x", "y", "z"]] { online := false }).out =
      .ret (none, some (.errorString ("Unable to retrieve data from sheet. " ++
        "googleapi: Error 503: The service is currently unavailable."))) :=
  ⟨rfl, insertRow_returns_the_error_of_get fakeEnv fakeTrix [["x", "y", "z"]]
    { online := false } none _ rfl⟩

/-- Claim C4. When the service answers a get or an update with the error `e`, `Get`
returns a nil response and an error whose text is `Unable to retrieve data from
sheet. ` followed by the text of `e`, and `Update` returns a nil response and an
error whose text is `Unable to UPDATE data ON sheet. ` followed by the text of `e`;
when the service answers with a response, that response is returned as it is with a
nil error. -/
theorem remote_errors_are_wrapped {ω κ : Type} (env : Env ω κ) (t : Trix) (r : String)
    (values : List (List κ)) (w : ω) :
    (∀ e w1, env.ValuesGet t.sheetsService t.spreadsheetID r w = (.error e, w1) →
      (Get env t r w).out =
        .ret (none, some (Errorf "Unable to retrieve data from sheet. " e)) ∧
      (Errorf "Unable to retrieve data from sheet. " e).Error =
        "Unable to retrieve data from sheet. " ++ e.Error) ∧
    (∀ resp w1, env.ValuesGet t.sheetsService t.spreadsheetID r w = (.ok resp, w1) →
      (Get env t r w).out = .ret (some resp, none)) ∧
    (∀ e w1, env.ValuesUpdate t.sheetsService t.spreadsheetID r { Values := values }
        "USER_ENTERED" w = (.error e, w1) →
      (Update env t r values w).out =
        .ret (none, some (Errorf "Unable to UPDATE data ON sheet. " e)) ∧
      (Errorf "Unable to UPDATE data ON sheet. " e).Error =
        "Unable to UPDATE data ON sheet. " ++ e.Error) ∧
    (∀ resp w1, env.ValuesUpdate t.sheetsService t.spreadsheetID r { Values := values }
        "USER_ENTERED" w = (.ok resp, w1) →
      (Update env t r values w).out = .ret (some resp, none)) := by
  refine ⟨fun e w1 h => ?_, fun resp w1 h => ?_, fun e w1 h => ?_, fun resp w1 h => ?_⟩
  · exact ⟨by rw [Get_run_error env t r w w1 e h], rfl⟩
  · rw [Get_run_ok env t r w w1 resp h]
  · exact ⟨by rw [Update_run_error env t r values w w1 e h], rfl⟩
  · rw [Update_run_ok env t r values w w1 resp h]

/-- Claim C4, on the fake service: unreachable for the two failures, reachable for
the two successes. -/
theorem remote_errors_are_wrapped_witness :
    ((Get fakeEnv fakeTrix "RSVP!A:C" { online := false }).out =
        .ret (none, some (.errorString ("Unable to retrieve data from sheet. " ++
          "googleapi: Error 503: The service is currently unavailable."))) ∧
      (GoError.errorString ("Unable to retrieve data from sheet. " ++
          "googleapi: Error 503: The service is currently unavailable.")).Error =
        "Unable to retrieve data from sheet. " ++
          "googleapi: Error 503: The service is currently unavailable.") ∧
    (Get fakeEnv fakeTrix "RSVP!A:C" { rows := [["a", "b", "c"]] }).out =
      .ret (some { MajorDimension := "ROWS", Range := "RSVP!A:C",
                   Values := [["a", "b", "c"]] }, none) ∧
    ((Update fakeEnv fakeTrix "RSVP!A2:C2" [["x", "y", "z"]] { online := false }).out =
        .ret (none, some (.errorString ("Unable to UPDATE data ON sheet. " ++
          "googleapi: Error 503: The service is currently unavailable."))) ∧
      (GoError.errorString ("Unable to UPDATE data ON sheet. " ++
          "googleapi: Error 503: The service is currently unavailable.")).Error =
        "Unable to UPDATE data ON sheet. " ++
          "googleapi: Error 503: The service is currently unavailable.") ∧
    (Update fakeEnv fakeTrix "RSVP!A2:C2" [["x", "y", "z"]] { rows := [["a", "b", "c"]] }).out =
      .ret (some { SpreadsheetId := "doc-1", UpdatedCells := 3, UpdatedColumns := 3,
                   UpdatedRange := "RSVP!A2:C2", UpdatedRows := 1 }, none) :=
  ⟨(remote_errors_are_wrapped fakeEnv fakeTrix "RSVP!A:C" [] { online := false }).1 _ _ rfl,
   (remote_errors_are_wrapped fakeEnv fakeTrix "RSVP!A:C" []
      { rows := [["a", "b", "c"]] }).2.1 _ _ rfl,
   (remote_errors_are_wrapped fakeEnv fakeTrix "RSVP!A2:C2" [["x", "y", "z"]]
      { online := false }).2.2.1 _ _ rfl,
   (remote_errors_are_wrapped fakeEnv fakeTrix "RSVP!A2:C2" [["x", "y", "z"]]
      { rows := [["a", "b", "c"]] }).2.2.2 _ _ rfl⟩

/-- Claim C5. In `getClient`, `getTokenFromWeb` runs if and only if loading the cache
file fails. When `tokenFromFile` returns an error, the events of `getClient` are those of
`tokenCacheFile`, of the load, of one run of `getTokenFromWeb` and of a rest that
reads no operator input, so the operator is asked exactly once, and a client that is
returned carries the token `getTokenFromWeb` returned. When `tokenFromFile` returns a
nil error, `getClient` returns after the load with the loaded token as it is: no
prompt, no read of the operator's input, no exchange. -/
theorem getClient_authorizes_iff_load_fails {ω κ : Type} (env : Env ω κ) (config : Config)
    (w : ω) :
    (∀ tok e,
      (tokenFromFile env cachePath (tokenCacheFile env w).world).out = .ret (tok, some e) →
      (getClient env config w).events.countP Event.isScan = 1 ∧
      (∃ rest, (getClient env config w).events =
          (tokenCacheFile env w).events ++
            (tokenFromFile env cachePath (tokenCacheFile env w).world).events ++
            (getTokenFromWeb env config
              (tokenFromFile env cachePath (tokenCacheFile env w).world).world).events ++ rest ∧
          rest.countP Event.isScan = 0 ∧ rest.countP Event.isExchange = 0) ∧
      (∀ c, (getClient env config w).out = .ret c →
        ∃ webTok, (getTokenFromWeb env config
            (tokenFromFile env cachePath (tokenCacheFile env w).world).world).out =
              .ret webTok ∧ c = ⟨config, some webTok⟩)) ∧
    (∀ tok,
      (tokenFromFile env cachePath (tokenCacheFile env w).world).out = .ret (tok, none) →
      (getClient env config w).out = .ret ⟨config, tok⟩ ∧
      (getClient env config w).events =
        (tokenCacheFile env w).events ++
          (tokenFromFile env cachePath (tokenCacheFile env w).world).events ∧
      (getClient env config w).events.countP Event.isScan = 0 ∧
      (getClient env config w).events.countP Event.isExchange = 0) := by
  have hq := tokenFromFile_quiet env cachePath (env.MkdirAll ".credentials" 0o700 w).2
  constructor
  · intro tok e h
    rw [tokenCacheFile_run] at h ⊢
    simp only at h ⊢
    rw [getClient_run_miss env config w tok e h]
    generalize (tokenFromFile env cachePath (env.MkdirAll ".credentials" 0o700 w).2).world = wl
    generalize
      (tokenFromFile env cachePath (env.MkdirAll ".credentials" 0o700 w).2).events = el at hq ⊢
    have hshape := getTokenFromWeb_shape env config wl
    rcases hweb : getTokenFromWeb env config wl with ⟨o, w2, es⟩
    rw [hweb] at hshape
    simp only at hshape
    cases o with
    | ret webTok =>
      have hsq := saveToken_quiet env cachePath webTok w2
      rcases hsave : saveToken env cachePath webTok w2 with ⟨o2, w3, es2⟩
      rw [hsave] at hsq
      simp only at hsq
      refine ⟨?_, ⟨es2, ?_, hsq.1, hsq.2⟩, ?_⟩
      · cases o2 <;>
          simp [Proc.bind, hweb, hsave, Proc.pure, List.countP_cons, List.countP_append,
            Event.isScan, hq.2.1, hshape.1, hsq.1]
      · cases o2 <;> simp [Proc.bind, hweb, hsave, Proc.pure]
      · intro c hc
        refine ⟨webTok, rfl, ?_⟩
        cases o2 <;> simp [Proc.bind, hweb, hsave, Proc.pure] at hc
        exact hc.symm
    | fatal msg =>
      refine ⟨?_, ⟨[], ?_, rfl, rfl⟩, ?_⟩
      · simp [Proc.bind, hweb, List.countP_cons, List.countP_append, Event.isScan, hq.2.1,
          hshape.1]
      · simp [Proc.bind, hweb]
      · intro c hc
        simp [Proc.bind, hweb] at hc
    | panic msg =>
      refine ⟨?_, ⟨[], ?_, rfl, rfl⟩, ?_⟩
      · simp [Proc.bind, hweb, List.countP_cons, List.countP_append, Event.isScan, hq.2.1,
          hshape.1]
      · simp [Proc.bind, hweb]
      · intro c hc
        simp [Proc.bind, hweb] at hc
  · intro tok h
    rw [tokenCacheFile_run] at h ⊢
    simp only at h ⊢
    rw [getClient_run_hit env config w tok h]
    simp [List.countP_cons, Event.isScan, Event.isExchange, hq.2.1, hq.2.2]

/-- Claim C5, on the fake environment: a first run without a cache file asks the
operator once and uses the token from the endpoint; a run with a cache file asks
nobody and uses the cached token. -/
theorem getClient_authorizes_iff_load_fails_witness :
    ((tokenFromFile fakeEnv cachePath (tokenCacheFile fakeEnv firstRunWorld).world).out =
        .ret (none, some (.external ("open " ++ cachePath ++ ": no such file or directory"))) ∧
      (getClient fakeEnv fakeConfig firstRunWorld).events.countP Event.isScan = 1 ∧
      (getClient fakeEnv fakeConfig firstRunWorld).out = .ret ⟨fakeConfig, some webToken⟩) ∧
    ((tokenFromFile fakeEnv cachePath (tokenCacheFile fakeEnv cachedWorld).world).out =
        .ret (some { AccessToken := "cached" }, none) ∧
      (getClient fakeEnv fakeConfig cachedWorld).out =
        .ret ⟨fakeConfig, some { AccessToken := "cached" }⟩ ∧
      (getClient fakeEnv fakeConfig cachedWorld).events.countP Event.isScan = 0) :=
  ⟨⟨rfl,
    ((getClient_authorizes_iff_load_fails fakeEnv fakeConfig firstRunWorld).1 none
      (.external ("open " ++ cachePath ++ ": no such file or directory")) rfl).1,
    rfl⟩,
   ⟨rfl,
    ((getClient_authorizes_iff_load_fails fakeEnv fakeConfig cachedWorld).2
      (some { AccessToken := "cached" }) rfl).1,
    ((getClient_authorizes_iff_load_fails fakeEnv fakeConfig cachedWorld).2
      (some { AccessToken := "cached" }) rfl).2.2.1⟩⟩

/-- Claim C3. For a Trix that `NewTrix id` returned, `Update r values` sends exactly one
request to the service, a values-update whose document is `id`, whose range is `r`,
whose body holds `values` as given and whose value-input option is `USER_ENTERED`;
the only other thing it does is print the values. -/
theorem update_sends_values_unmodified {ω κ : Type} (env : Env ω κ) (id : String) (w0 : ω)
    (t : Trix) (e0 : Option GoError) (r : String) (values : List (List κ)) (w : ω)
    (hnew : (NewTrix env id w0).out = .ret (some t, e0)) :
    (Update env t r values w).events =
      [.printlnValues values,
       .valuesUpdate t.sheetsService id r { Values := values } "USER_ENTERED"] ∧
    (Update env t r values w).events.filter Event.isValuesUpdate =
      [.valuesUpdate t.sheetsService id r { Values := values } "USER_ENTERED"] ∧
    (Update env t r values w).events.filter Event.isValuesGet = [] := by
  rw [Update_events, NewTrix_spreadsheetID env id w0 t e0 hnew]
  exact ⟨rfl, rfl, rfl⟩

/-- Claim C3, on the fake environment: `NewTrix "doc-1"` with a cached token, then an update. -/
theorem update_sends_values_unmodified_witness :
    (NewTrix fakeEnv "doc-1" (cachedWorld.store "client_secret.json" "client-7")).out =
      .ret (some fakeTrix, none) ∧
    (Update fakeEnv fakeTrix "RSVP!A3:C3" [["x", "y", "z"]]
        { rows := [["a", "b", "c"], ["d", "e", "f"]] }).events.filter Event.isValuesUpdate =
      [.valuesUpdate fakeTrix.sheetsService "doc-1" "RSVP!A3:C3"
        { Values := [["x", "y", "z"]] } "USER_ENTERED"] :=
  ⟨rfl, (update_sends_values_unmodified fakeEnv "doc-1"
    (cachedWorld.store "client_secret.json" "client-7") fakeTrix none "RSVP!A3:C3"
    [["x", "y", "z"]] { rows := [["a", "b", "c"], ["d", "e", "f"]] } rfl).2.1⟩

/-- Claim C6, at the failing input: on a first run with no space left on the disk,
`os.Create` succeeds and the write of the token fails, yet `saveToken` returns and
`getClient` returns a client; the cache file is left empty. -/
theorem getClient_returns_when_token_write_fails :
    (fakeEnv.Write 0
        ("\x7b\"access_token\":\"access-4/abc\",\"token_type\":\"Bearer\"," ++
          "\"refresh_token\":\"refresh-4/abc\",\"expiry\":3600000000000\x7d\n")
        { files := [(cachePath, "")], handles := [cachePath], diskFull := true }).1 =
      some (.external ("write " ++ cachePath ++ ": no space left on device")) ∧
    (getClient fakeEnv fakeConfig { firstRunWorld with diskFull := true }).out =
      .ret ⟨fakeConfig, some webToken⟩ ∧
    (getClient fakeEnv fakeConfig { firstRunWorld with diskFull := true }).world =
      { files := [(cachePath, "")], handles := [cachePath], diskFull := true } ∧
    (getClient fakeEnv fakeConfig { firstRunWorld with diskFull := true }).events =
      [.mkdirAll ".credentials" 0o700, .osOpen cachePath,
       .stdout (authPrompt (fakeEnv.AuthCodeURL fakeConfig "state-token")), .scan,
       .exchange fakeConfig "4/abc",
       .stdout ("Saving credential file to: " ++ cachePath ++ "\n"), .osCreate cachePath,
       .fileWrite 0
        ("\x7b\"access_token\":\"access-4/abc\",\"token_type\":\"Bearer\"," ++
          "\"refresh_token\":\"refresh-4/abc\",\"expiry\":3600000000000\x7d\n"),
       .fileClose 0] :=
  ⟨rfl, rfl, rfl, rfl⟩

/-! ## The token cache on the host -/

theorem hexVal_hexDigit : ∀ d, d < 16 → hexVal (hexDigit d) = some d := by decide

theorem getu4_hexDigit (k : Nat) (hk : k < 65536) :
    getu4 (hexDigit (k / 4096)) (hexDigit (k / 256 % 16)) (hexDigit (k / 16 % 16))
      (hexDigit (k % 16)) = some k := by
  simp only [getu4, hexVal_hexDigit (k / 4096) (by omega), hexVal_hexDigit (k / 256 % 16) (by omega),
    hexVal_hexDigit (k / 16 % 16) (by omega), hexVal_hexDigit (k % 16) (by omega)]
  congr 1
  omega

theorem scanString_escaped (s rest : List Char) :
    ∀ fuel, (s.flatMap jsonEscapeChar).length < fuel →
      scanString fuel (s.flatMap jsonEscapeChar ++ '"' :: rest) =
        some (s.flatMap jsonEscapeChar, s, rest) := by
  induction s with
  | nil =>
    intro fuel h
    cases fuel with
    | zero => simp at h
    | succ f => simp [scanString]
  | cons c s ih =>
    intro fuel h
    cases fuel with
    | zero => simp at h
    | succ f =>
      simp only [List.flatMap_cons, List.length_append] at h
      have hlen : 1 ≤ (jsonEscapeChar c).length := by
        unfold jsonEscapeChar; split_ifs <;> simp
      have ih' := ih f (by omega)
      simp only [List.flatMap_cons, List.append_assoc]
      by_cases h1 : c = '"'
      · subst h1
        simp [jsonEscapeChar, scanString, unescapeSimple, ih']
      by_cases h2 : c = '\\'
      · subst h2
        simp [jsonEscapeChar, scanString, unescapeSimple, ih']
      by_cases hb : c = Char.ofNat 8
      · subst hb
        simp [jsonEscapeChar, scanString, unescapeSimple, ih']
      by_cases hf : c = Char.ofNat 12
      · subst hf
        simp [jsonEscapeChar, scanString, unescapeSimple, ih']
      by_cases h3 : c = '\n'
      · subst h3
        simp [jsonEscapeChar, scanString, unescapeSimple, ih']
      by_cases h4 : c = '\r'
      · subst h4
        simp [jsonEscapeChar, scanString, unescapeSimple, ih']
      by_cases h5 : c = '\t'
      · subst h5
        simp [jsonEscapeChar, scanString, unescapeSimple, ih']
      by_cases h6 : c.toNat < 0x20 ∨ c = '<' ∨ c = '>' ∨ c = '&' ∨ c.toNat = 0x2028 ∨
          c.toNat = 0x2029
      · have hk : c.toNat < 65536 ∧ ¬ (0xD800 ≤ c.toNat ∧ c.toNat < 0xE000) := by
          rcases h6 with h | h | h | h | h | h
          · omega
          · subst h; decide
          · subst h; decide
          · subst h; decide
          · omega
          · omega
        have hesc : jsonEscapeChar c = ['\\', 'u', hexDigit (c.toNat / 4096),
            hexDigit (c.toNat / 256 % 16), hexDigit (c.toNat / 16 % 16),
            hexDigit (c.toNat % 16)] := by
          simp only [jsonEscapeChar, h1, h2, hb, hf, h3, h4, h5, h6, if_true, if_false]
        rw [hesc]
        simp [scanString, getu4_hexDigit c.toNat hk.1, hk.2, ih', Char.ofNat_toNat]
      · have hesc : jsonEscapeChar c = [c] := by
          simp only [jsonEscapeChar, h1, h2, hb, hf, h3, h4, h5, h6, if_false]
        have hctl : ¬ c.toNat < 0x20 := fun hh => h6 (Or.inl hh)
        rw [hesc]
        simp [scanString, h1, h2, hctl, ih']

theorem digitVal_digit : ∀ k, k < 10 → digitVal (Char.ofNat (48 + k)) = some k := by decide

theorem digitVal_digitChar (d : Nat) : digitVal (digitChar d) = some (d % 10) :=
  digitVal_digit (d % 10) (Nat.mod_lt _ (by decide))

theorem toNat_digit : ∀ k, k < 10 → (Char.ofNat (48 + k)).toNat - 48 = k := by decide

theorem toNat_digitChar (d : Nat) : (digitChar d).toNat - 48 = d % 10 :=
  toNat_digit (d % 10) (Nat.mod_lt _ (by decide))

theorem num2_pad (n : Nat) (h : n < 100) : num2 (digitChar (n / 10)) (digitChar n) = some n := by
  simp only [num2, digitVal_digitChar]
  congr 1
  omega

theorem num4_pad (n : Nat) (h : n < 10000) :
    num4 (digitChar (n / 1000)) (digitChar (n / 100)) (digitChar (n / 10)) (digitChar n) =
      some n := by
  simp only [num4, num2, digitVal_digitChar]
  congr 1
  omega

theorem daysInYear_pos (y : Nat) : 365 ≤ daysInYear y ∧ daysInYear y ≤ 366 := by
  unfold daysInYear; split_ifs <;> omega

theorem daysBeforeYear_closed (y : Nat) :
    daysBeforeYear y + (y + 99) / 100 = 365 * y + (y + 3) / 4 + (y + 399) / 400 := by
  induction y with
  | zero => rfl
  | succ y ih =>
    simp only [daysBeforeYear, daysInYear, isLeap]
    by_cases h4 : y % 4 = 0 <;> by_cases h100 : y % 100 = 0 <;> by_cases h400 : y % 400 = 0 <;>
      simp [h4, h100, h400] <;> omega

theorem daysBeforeYear_limit : daysBeforeYear 10000 = 3652425 := by
  have := daysBeforeYear_closed 10000
  omega

theorem yearOfDay_spec : ∀ (fuel y d : Nat),
    daysBeforeYear y + d < daysBeforeYear (y + fuel) →
    (yearOfDay fuel y d).2 < daysInYear (yearOfDay fuel y d).1 ∧
    daysBeforeYear (yearOfDay fuel y d).1 + (yearOfDay fuel y d).2 = daysBeforeYear y + d ∧
    (yearOfDay fuel y d).1 < y + fuel := by
  intro fuel
  induction fuel with
  | zero => intro y d h; simp at h
  | succ f ih =>
    intro y d h
    unfold yearOfDay
    split_ifs with hd
    · exact ⟨hd, rfl, by omega⟩
    · have hs : daysBeforeYear (y + 1) = daysBeforeYear y + daysInYear y := rfl
      have hrec := ih (y + 1) (d - daysInYear y) (by
        have e : y + 1 + f = y + (f + 1) := by omega
        rw [e]
        omega)
      refine ⟨hrec.1, ?_, by omega⟩
      rw [hrec.2.1]
      omega

theorem daysIn_pos (y m : Nat) : 28 ≤ daysIn y m ∧ daysIn y m ≤ 31 := by
  unfold daysIn; split_ifs <;> omega

theorem daysBeforeMonth_succ (y m : Nat) (h : 1 ≤ m) :
    daysBeforeMonth y (m + 1) = daysBeforeMonth y m + daysIn y m := by
  have : m ≠ 0 := by omega
  simp [daysBeforeMonth, this]

theorem daysBeforeMonth_end (y : Nat) : daysBeforeMonth y 13 = daysInYear y := by
  simp only [daysBeforeMonth, daysIn, daysInYear]
  by_cases h : isLeap y = true <;> simp [h]

theorem monthOfDay_spec (y : Nat) : ∀ (fuel m d : Nat), 1 ≤ m →
    daysBeforeMonth y m + d < daysBeforeMonth y (m + fuel) →
    (monthOfDay y fuel m d).2 < daysIn y (monthOfDay y fuel m d).1 ∧
    daysBeforeMonth y (monthOfDay y fuel m d).1 + (monthOfDay y fuel m d).2 =
      daysBeforeMonth y m + d ∧
    m ≤ (monthOfDay y fuel m d).1 ∧ (monthOfDay y fuel m d).1 < m + fuel := by
  intro fuel
  induction fuel with
  | zero => intro m d _ h; simp at h
  | succ f ih =>
    intro m d hm h
    unfold monthOfDay
    split_ifs with hd
    · exact ⟨hd, rfl, le_refl _, by omega⟩
    · have hrec := ih (m + 1) (d - daysIn y m) (by omega) (by
        have e : m + 1 + f = m + (f + 1) := by omega
        rw [e, daysBeforeMonth_succ y m hm]
        omega)
      refine ⟨hrec.1, ?_, by omega, by omega⟩
      rw [hrec.2.1, daysBeforeMonth_succ y m hm]
      omega

theorem fracNanos_trimZeros (ds : List Char) :
    ∀ scale, fracNanos (trimZeros ds) scale = fracNanos ds scale := by
  induction ds with
  | nil => intro scale; rfl
  | cons c cs ih =>
    intro scale
    unfold trimZeros
    split_ifs with h
    · have h0 := ih (scale / 10)
      rw [h.1] at h0
      simp only [fracNanos] at h0 ⊢
      rw [← h0, h.2]
      simp
    · simp only [fracNanos, ih]

theorem mem_of_mem_trimZeros (ds : List Char) : ∀ c, c ∈ trimZeros ds → c ∈ ds := by
  induction ds with
  | nil => intro c h; simp [trimZeros] at h
  | cons d ds ih =>
    intro c h
    unfold trimZeros at h
    split_ifs at h with hz
    · simp at h
    · rcases List.mem_cons.mp h with h | h
      · exact List.mem_cons.mpr (Or.inl h)
      · exact List.mem_cons.mpr (Or.inr (ih c h))

theorem fracNanos_pad9 (n : Nat) (h : n < 1000000000) : fracNanos (pad9 n) 100000000 = n := by
  simp only [pad9, fracNanos, toNat_digitChar]
  omega

theorem takeWhile_append_stop {α : Type} (p : α → Bool) (l : List α) (z : α) (r : List α)
    (hl : ∀ a ∈ l, p a = true) (hz : p z = false) :
    (l ++ z :: r).takeWhile p = l ∧ (l ++ z :: r).dropWhile p = z :: r := by
  induction l with
  | nil => simp [List.takeWhile, List.dropWhile, hz]
  | cons a l ih =>
    have ha : p a = true := hl a (List.mem_cons_self a l)
    have := ih (fun b hb => hl b (List.mem_cons_of_mem a hb))
    simp [List.takeWhile, List.dropWhile, ha, this.1, this.2]

theorem parseFraction_formatNano (ns : Nat) (h : ns < 1000000000) :
    parseFraction (formatNano ns ++ ['Z']) = (ns, ['Z']) := by
  unfold formatNano
  split_ifs with h0
  · subst h0; rfl
  · have hval : fracNanos (trimZeros (pad9 ns)) 100000000 = ns := by
      rw [fracNanos_trimZeros, fracNanos_pad9 ns h]
    have hdig : ∀ c ∈ trimZeros (pad9 ns), (fun c => (digitVal c).isSome) c = true := by
      intro c hc
      have hc2 := mem_of_mem_trimZeros _ c hc
      simp only [pad9, List.mem_cons, List.mem_singleton, List.not_mem_nil, or_false] at hc2
      rcases hc2 with h | h | h | h | h | h | h | h | h <;> subst h <;>
        simp [digitVal_digitChar]
    cases htz : trimZeros (pad9 ns) with
    | nil => rw [htz] at hval; simp [fracNanos] at hval; omega
    | cons d more =>
      rw [htz] at hval hdig
      have hd : (digitVal d).isSome = true := hdig d (List.mem_cons_self d more)
      have hstop := takeWhile_append_stop (fun c => (digitVal c).isSome) (d :: more) 'Z' []
        hdig (by decide)
      simp only [List.cons_append] at hstop ⊢
      simp only [parseFraction, hd, if_true, hstop.1, hstop.2, hval]

theorem parseTime_timeText (i : Int) (txt : List Char) (h : timeText i = some txt) :
    parseTime txt = some i := by
  unfold timeText at h
  simp only at h
  split_ifs at h with hr
  simp only [Option.some.injEq] at h
  subst h
  have hlim := daysBeforeYear_limit
  obtain ⟨n, hn⟩ : ∃ n : Nat, i / nanosPerDay + 366 = (n : Int) :=
    ⟨(i / nanosPerDay + 366).toNat, (Int.toNat_of_nonneg hr.1).symm⟩
  have hnlt : n < 3652425 := by
    have := hr.2
    rw [hn] at this
    simp only [maxDay0] at this
    omega
  rw [hn, Int.toNat_ofNat]
  have hz : daysBeforeYear 0 = 0 := rfl
  have hy := yearOfDay_spec 10000 0 n (by rw [hz, Nat.zero_add, Nat.zero_add, hlim]; exact hnlt)
  generalize yearOfDay 10000 0 n = yd at hy
  obtain ⟨y, doy⟩ := yd
  simp only [daysBeforeYear, Nat.zero_add] at hy
  have hm := monthOfDay_spec y 12 1 doy (le_refl 1) (by
    rw [daysBeforeMonth_end]
    simp [daysBeforeMonth]
    exact hy.1)
  generalize monthOfDay y 12 1 doy = md at hm
  obtain ⟨m, dom⟩ := md
  simp only [daysBeforeMonth, if_true, Nat.zero_add] at hm
  have hdi := daysIn_pos y m
  obtain ⟨r, hrm⟩ : ∃ r : Nat, i % nanosPerDay = (r : Int) :=
    ⟨(i % nanosPerDay).toNat,
      (Int.toNat_of_nonneg (Int.emod_nonneg i (by decide))).symm⟩
  have hrlt : r < 86400000000000 := by
    have := Int.emod_lt_of_pos i (show (0 : Int) < nanosPerDay by decide)
    rw [hrm] at this
    simp only [nanosPerDay] at this
    omega
  rw [hrm, Int.toNat_ofNat]
  simp only [pad4, pad2, List.cons_append, List.nil_append, List.append_assoc, parseTime]
  rw [num4_pad y (by omega), num2_pad m (by omega), num2_pad (dom + 1) (by omega),
    num2_pad (r / 1000000000 / 3600) (by omega), num2_pad (r / 1000000000 / 60 % 60) (by omega),
    num2_pad (r / 1000000000 % 60) (by omega)]
  simp only [parseFraction_formatNano (r % 1000000000) (Nat.mod_lt _ (by decide)), parseZone]
  have hcond : (True ∧ True ∧ True ∧ True ∧ True ∧ 1 ≤ m ∧ m ≤ 12 ∧
      1 ≤ dom + 1 ∧ dom + 1 ≤ daysIn y m ∧ r / 1000000000 / 3600 ≤ 23 ∧
      r / 1000000000 / 60 % 60 ≤ 59 ∧ r / 1000000000 % 60 ≤ 59) := by
    refine ⟨trivial, trivial, trivial, trivial, trivial, ?_, ?_, ?_, ?_, ?_, ?_, ?_⟩ <;> omega
  rw [if_pos hcond]
  simp only [Option.some.injEq]
  have hsplit := Int.ediv_add_emod i nanosPerDay
  have hdiv : i / nanosPerDay = (n : Int) - 366 := by omega
  rw [hdiv, hrm] at hsplit
  simp only [nanosPerDay] at hsplit ⊢
  have e1 : daysBeforeYear y + daysBeforeMonth y m + (dom + 1 - 1) = n := by omega
  have e2 : (r / 1000000000 / 3600 * 3600 + r / 1000000000 / 60 % 60 * 60 +
      r / 1000000000 % 60) * 1000000000 + r % 1000000000 = r := by omega
  rw [e1, e2]
  omega

theorem skipSpace_cons (c : Char) (cs : List Char) (h : isSpace c = false) :
    skipSpace (c :: cs) = c :: cs := by
  simp [skipSpace, List.dropWhile, h]

theorem parseValue_string (f : Nat) (s rest : List Char) :
    parseValue (f + 1) ('"' :: (s.flatMap jsonEscapeChar ++ '"' :: rest)) =
      some (.string (s.flatMap jsonEscapeChar) s, rest) := by
  have hs := scanString_escaped s rest ((s.flatMap jsonEscapeChar ++ '"' :: rest).length + 1)
    (by simp; omega)
  simp only [parseValue, skipSpace_cons '"' _ (by decide), if_true, hs, Option.map_some']

theorem parseMembers_step (f lf : Nat) (k s tail : List Char) (sep : Char)
    (hk : k.flatMap jsonEscapeChar = k) (hsep : isSpace sep = false) :
    parseMembers (parseValue (f + 1)) (lf + 1)
        ('"' :: (k ++ '"' :: ':' :: '"' :: (s.flatMap jsonEscapeChar ++ '"' :: sep :: tail))) =
      if sep = ',' then
        (parseMembers (parseValue (f + 1)) lf tail).map fun r =>
          ((k, JSON.string (s.flatMap jsonEscapeChar) s) :: r.1, r.2)
      else if sep = '}' then some ([(k, JSON.string (s.flatMap jsonEscapeChar) s)], tail)
      else none := by
  have hkey := scanString_escaped k
    (':' :: '"' :: (s.flatMap jsonEscapeChar ++ '"' :: sep :: tail))
    ((k ++ '"' :: ':' :: '"' :: (s.flatMap jsonEscapeChar ++ '"' :: sep :: tail)).length + 1)
    (by rw [hk]; simp; omega)
  rw [hk] at hkey
  simp only [parseMembers, skipSpace_cons '"' _ (by decide), if_true, hkey,
    skipSpace_cons ':' _ (by decide), parseValue_string, skipSpace_cons sep _ hsep]

theorem parseMembers_render (f : Nat) (rest : List Char) :
    ∀ (ms : List (List Char × List Char)) (lf : Nat), ms ≠ [] → ms.length ≤ lf →
      (∀ m ∈ ms, m.1.flatMap jsonEscapeChar = m.1) →
      parseMembers (parseValue (f + 1)) lf
          (renderMembers (ms.map fun m => (m.1, jsonQuote m.2)) ++ '}' :: rest) =
        some (ms.map fun m => (m.1, JSON.string (m.2.flatMap jsonEscapeChar) m.2), rest) := by
  intro ms
  induction ms with
  | nil => intro lf h; exact absurd rfl h
  | cons m ms ih =>
    intro lf _ hlen hplain
    obtain ⟨g, hg⟩ : ∃ g, lf = g + 1 := ⟨lf - 1, by simp at hlen; omega⟩
    subst hg
    have hk := hplain m (List.mem_cons_self m ms)
    cases ms with
    | nil =>
      simp only [List.map_cons, List.map_nil, renderMembers, jsonQuote, List.cons_append,
        List.append_assoc, List.nil_append]
      rw [parseMembers_step f g m.1 m.2 rest '}' hk (by decide)]
      simp
    | cons m2 ms2 =>
      have ih' := ih g (by simp) (by simp at hlen ⊢; omega)
        (fun x hx => hplain x (List.mem_cons_of_mem m hx))
      simp only [List.map_cons, renderMembers, jsonQuote, List.cons_append,
        List.append_assoc, List.nil_append] at ih' ⊢
      rw [parseMembers_step f g m.1 m.2 _ ',' hk (by decide)]
      simp only [if_true]
      rw [ih']
      simp

theorem jsonEscapeChar_digit : ∀ k, k < 10 →
    jsonEscapeChar (Char.ofNat (48 + k)) = [Char.ofNat (48 + k)] := by decide

theorem jsonEscapeChar_digitChar (d : Nat) : jsonEscapeChar (digitChar d) = [digitChar d] :=
  jsonEscapeChar_digit (d % 10) (Nat.mod_lt _ (by decide))

theorem flatMap_escape_plain (l : List Char) (h : ∀ c ∈ l, jsonEscapeChar c = [c]) :
    l.flatMap jsonEscapeChar = l := by
  induction l with
  | nil => rfl
  | cons c l ih =>
    simp only [List.flatMap_cons, h c (List.mem_cons_self c l), List.singleton_append,
      ih fun d hd => h d (List.mem_cons_of_mem c hd)]

theorem plain_pad2 (n : Nat) : ∀ c ∈ pad2 n, jsonEscapeChar c = [c] := by
  intro c hc
  simp only [pad2, List.mem_cons, List.mem_singleton, List.not_mem_nil, or_false] at hc
  rcases hc with h | h <;> subst h <;> exact jsonEscapeChar_digitChar _

theorem plain_pad4 (n : Nat) : ∀ c ∈ pad4 n, jsonEscapeChar c = [c] := by
  intro c hc
  simp only [pad4, List.mem_cons, List.mem_singleton, List.not_mem_nil, or_false] at hc
  rcases hc with h | h | h | h <;> subst h <;> exact jsonEscapeChar_digitChar _

theorem plain_formatNano (n : Nat) : ∀ c ∈ formatNano n, jsonEscapeChar c = [c] := by
  intro c hc
  unfold formatNano at hc
  split_ifs at hc with h0
  · simp at hc
  · rcases List.mem_cons.mp hc with h | h
    · subst h; decide
    · have hc2 := mem_of_mem_trimZeros _ c h
      simp only [pad9, List.mem_cons, List.mem_singleton, List.not_mem_nil, or_false] at hc2
      rcases hc2 with h | h | h | h | h | h | h | h | h <;> subst h <;>
        exact jsonEscapeChar_digitChar _

theorem timeText_plain (i : Int) (txt : List Char) (h : timeText i = some txt) :
    txt.flatMap jsonEscapeChar = txt := by
  apply flatMap_escape_plain
  unfold timeText at h
  simp only at h
  split_ifs at h with hr
  simp only [Option.some.injEq] at h
  subst h
  simp only [List.forall_mem_append, List.forall_mem_cons]
  repeat' apply And.intro
  all_goals
    first
    | exact plain_pad4 _
    | exact plain_pad2 _
    | exact plain_formatNano _
    | decide

theorem length_renderMembers :
    ∀ ms : List (List Char × List Char), ms.length ≤ (renderMembers ms).length := by
  intro ms
  induction ms with
  | nil => simp
  | cons m ms ih =>
    cases ms with
    | nil => simp [renderMembers]
    | cons m2 ms2 =>
      simp only [renderMembers, List.length_cons, List.length_append] at ih ⊢
      omega

theorem renderMembers_head (m : List Char × List Char) (ms : List (List Char × List Char)) :
    ∃ tl, renderMembers (m :: ms) = '"' :: tl := by
  obtain ⟨k, v⟩ := m
  cases ms with
  | nil => exact ⟨_, rfl⟩
  | cons m2 ms2 => exact ⟨_, rfl⟩

theorem parseValue_brace (f : Nat) (tl : List Char) :
    parseValue (f + 1) ('{' :: '"' :: tl) =
      (parseMembers (parseValue f) (('"' :: tl).length + 1) ('"' :: tl)).map fun r =>
        (.object r.1, r.2) := by
  rw [parseValue]
  simp only [skipSpace_cons '{' _ (by decide), skipSpace_cons '"' _ (by decide),
    show ¬ ('{' = '"') by decide, show ¬ ('"' = '}') by decide, if_false, if_true]

theorem parseValue_object (f : Nat) (rest : List Char) (ms : List (List Char × List Char))
    (hne : ms ≠ []) (hplain : ∀ m ∈ ms, m.1.flatMap jsonEscapeChar = m.1) :
    parseValue (f + 2) ('{' :: (renderMembers (ms.map fun m => (m.1, jsonQuote m.2)) ++
        '}' :: rest)) =
      some (.object (ms.map fun m => (m.1, JSON.string (m.2.flatMap jsonEscapeChar) m.2)),
        rest) := by
  obtain ⟨m, ms', rfl⟩ := List.exists_cons_of_ne_nil hne
  obtain ⟨tl, htl⟩ := renderMembers_head (m.1, jsonQuote m.2)
    (ms'.map fun m => (m.1, jsonQuote m.2))
  have hlen := length_renderMembers ((m :: ms').map fun m => (m.1, jsonQuote m.2))
  have hparse := parseMembers_render f rest (m :: ms')
    ((renderMembers ((m :: ms').map fun m => (m.1, jsonQuote m.2)) ++ '}' :: rest).length + 1)
    hne (by simp only [List.length_append, List.length_map] at hlen ⊢; omega) hplain
  simp only [List.map_cons] at htl hparse ⊢
  rw [htl] at hparse ⊢
  simp only [List.cons_append] at hparse ⊢
  rw [parseValue_brace (f + 1), hparse]
  rfl

/-- Decoding the text of an object whose members are strings under plain keys gives
what filling from those members gives. -/
theorem goDecode_object (ms : List (List Char × List Char)) (hne : ms ≠ [])
    (hplain : ∀ m ∈ ms, m.1.flatMap jsonEscapeChar = m.1) :
    goDecode (String.mk ('{' :: renderMembers (ms.map fun m => (m.1, jsonQuote m.2)) ++ ['}']) ++
        "\n") none =
      fillMembers {} none
        (ms.map fun m => (m.1, JSON.string (m.2.flatMap jsonEscapeChar) m.2)) := by
  have hdata : (String.mk ('{' :: renderMembers (ms.map fun m => (m.1, jsonQuote m.2)) ++
      ['}']) ++ "\n").data =
      '{' :: (renderMembers (ms.map fun m => (m.1, jsonQuote m.2)) ++ '}' :: ['\n']) := by
    simp [String.data_append]
  unfold goDecode
  rw [hdata]
  have hf : ('{' :: (renderMembers (ms.map fun m => (m.1, jsonQuote m.2)) ++
      '}' :: ['\n'])).length + 1 =
      (renderMembers (ms.map fun m => (m.1, jsonQuote m.2))).length + 2 + 2 := by
    simp only [List.length_cons, List.length_append, List.length_nil]
  rw [hf, parseValue_object _ ['\n'] ms hne hplain]
  simp [unmarshalToken]

theorem findField_names :
    findField "access_token".data = some .accessToken ∧
    findField "token_type".data = some .tokenType ∧
    findField "refresh_token".data = some .refreshToken ∧
    findField "expiry".data = some .expiry := by decide

theorem plain_names :
    "access_token".data.flatMap jsonEscapeChar = "access_token".data ∧
    "token_type".data.flatMap jsonEscapeChar = "token_type".data ∧
    "refresh_token".data.flatMap jsonEscapeChar = "refresh_token".data ∧
    "expiry".data.flatMap jsonEscapeChar = "expiry".data := by decide

/-- What the decoder makes of the members the encoder writes for a token. -/
theorem fill_pairs (a tt r : String) (e : Int) (txt : List Char)
    (hp : parseTime txt = some e) (raw1 raw2 raw3 raw4 : List Char) :
    fillMembers {} none [("access_token".data, JSON.string raw1 a.data),
        ("expiry".data, JSON.string txt raw4)] = (⟨a, "", "", e⟩, none) ∧
    fillMembers {} none [("access_token".data, JSON.string raw1 a.data),
        ("refresh_token".data, JSON.string raw3 r.data),
        ("expiry".data, JSON.string txt raw4)] = (⟨a, "", r, e⟩, none) ∧
    fillMembers {} none [("access_token".data, JSON.string raw1 a.data),
        ("token_type".data, JSON.string raw2 tt.data),
        ("expiry".data, JSON.string txt raw4)] = (⟨a, tt, "", e⟩, none) ∧
    fillMembers {} none [("access_token".data, JSON.string raw1 a.data),
        ("token_type".data, JSON.string raw2 tt.data),
        ("refresh_token".data, JSON.string raw3 r.data),
        ("expiry".data, JSON.string txt raw4)] = (⟨a, tt, r, e⟩, none) := by
  obtain ⟨f1, f2, f3, f4⟩ := findField_names
  refine ⟨?_, ?_, ?_, ?_⟩ <;>
    simp only [fillMembers, f1, f2, f3, f4, storeField, hp]

/-- The decoder gives back every token the encoder accepts. -/
theorem goDecode_goMarshal (t : Token) (b : String) (h : goMarshal t = .ok b) :
    goDecode (b ++ "\n") none = (t, none) := by
  unfold goMarshal at h
  cases htxt : timeText t.Expiry with
  | none => simp [htxt] at h
  | some txt =>
    simp only [htxt, Except.ok.injEq] at h
    subst h
    have hq := timeText_plain t.Expiry txt htxt
    have hp := parseTime_timeText t.Expiry txt htxt
    have hquote : '"' :: txt ++ ['"'] = jsonQuote txt := by simp [jsonQuote, hq]
    obtain ⟨k1, k2, k3, k4⟩ := plain_names
    obtain ⟨a, tt, r, e⟩ := t
    simp only at htxt hq hp
    have hfill := fill_pairs a tt r e txt hp (a.data.flatMap jsonEscapeChar)
      (tt.data.flatMap jsonEscapeChar) (r.data.flatMap jsonEscapeChar) txt
    by_cases h1 : tt = "" <;> by_cases h2 : r = ""
    · subst h1; subst h2
      have hm : tokenMembers ⟨a, "", "", e⟩ txt =
          [("access_token".data, a.data), ("expiry".data, txt)].map
            fun m => (m.1, jsonQuote m.2) := by
        rw [tokenMembers, hquote]; rfl
      rw [hm, goDecode_object _ (by simp) (by
        intro m hm
        simp only [List.mem_cons, List.mem_singleton, List.not_mem_nil, or_false] at hm
        rcases hm with rfl | rfl
        · exact k1
        · exact k4)]
      simp only [List.map_cons, List.map_nil, hq]
      exact hfill.1
    · subst h1
      have hm : tokenMembers ⟨a, "", r, e⟩ txt =
          [("access_token".data, a.data), ("refresh_token".data, r.data),
            ("expiry".data, txt)].map fun m => (m.1, jsonQuote m.2) := by
        rw [tokenMembers, hquote]; simp only [h2, if_true, if_false]; rfl
      rw [hm, goDecode_object _ (by simp) (by
        intro m hm
        simp only [List.mem_cons, List.mem_singleton, List.not_mem_nil, or_false] at hm
        rcases hm with rfl | rfl | rfl
        · exact k1
        · exact k3
        · exact k4)]
      simp only [List.map_cons, List.map_nil, hq]
      exact hfill.2.1
    · subst h2
      have hm : tokenMembers ⟨a, tt, "", e⟩ txt =
          [("access_token".data, a.data), ("token_type".data, tt.data),
            ("expiry".data, txt)].map fun m => (m.1, jsonQuote m.2) := by
        rw [tokenMembers, hquote]; simp only [h1, if_true, if_false]; rfl
      rw [hm, goDecode_object _ (by simp) (by
        intro m hm
        simp only [List.mem_cons, List.mem_singleton, List.not_mem_nil, or_false] at hm
        rcases hm with rfl | rfl | rfl
        · exact k1
        · exact k2
        · exact k4)]
      simp only [List.map_cons, List.map_nil, hq]
      exact hfill.2.2.1
    · have hm : tokenMembers ⟨a, tt, r, e⟩ txt =
          [("access_token".data, a.data), ("token_type".data, tt.data),
            ("refresh_token".data, r.data), ("expiry".data, txt)].map
            fun m => (m.1, jsonQuote m.2) := by
        rw [tokenMembers, hquote]; simp only [h1, h2, if_false]; rfl
      rw [hm, goDecode_object _ (by simp) (by
        intro m hm
        simp only [List.mem_cons, List.mem_singleton, List.not_mem_nil, or_false] at hm
        rcases hm with rfl | rfl | rfl | rfl
        · exact k1
        · exact k2
        · exact k3
        · exact k4)]
      simp only [List.map_cons, List.map_nil, hq]
      exact hfill.2.2.2

theorem walk_congr (fs fs2 : FileTree) (hd : fs2.dirs = fs.dirs) :
    ∀ (names : List (List Char)) (cur : Place), fs2.walk cur names = fs.walk cur names := by
  intro names
  induction names with
  | nil => intro cur; rfl
  | cons name rest ih =>
    intro cur
    simp only [FileTree.walk, FileTree.isDir, hd, ih]

theorem resolve_congr (fs fs2 : FileTree) (hc : fs2.cwd = fs.cwd) (hd : fs2.dirs = fs.dirs)
    (name : String) : fs2.resolve name = fs.resolve name := by
  simp only [FileTree.resolve, hc, walk_congr fs fs2 hd]

theorem fileAt_store (fs : FileTree) (p : Place) (data : String) :
    (fs.store p data).fileAt p = some data := by
  simp [FileTree.store, FileTree.fileAt, List.lookup]

theorem get?_append_length {α : Type} (l : List α) (a : α) :
    (l ++ [a]).get? l.length = some a := by
  induction l with
  | nil => rfl
  | cons b l ih => simp

/-- What a successful `os.Create` does to the file tree. -/
theorem FileTree.create_ok (fs : FileTree) (name : String) (f : File)
    (hc : (fs.create name).1 = .ok f) :
    ∃ p, fs.resolve name = some p ∧ f = fs.handles.length ∧
      (fs.create name).2 = (fs.store p "").withHandle ⟨p, true⟩ := by
  unfold FileTree.create at hc ⊢
  cases hres : fs.resolve name with
  | none => simp [hres] at hc
  | some p =>
    simp only [hres] at hc ⊢
    by_cases hdir : fs.isDir p = true
    · simp [hdir] at hc
    by_cases hro : fs.readOnly = true
    · simp [hdir, hro] at hc
    simp only [hdir, hro, Bool.false_eq_true, if_false, Except.ok.injEq] at hc ⊢
    exact ⟨p, rfl, hc.symm, rfl⟩

/-- What a successful write does to the file tree. -/
theorem FileTree.write_ok (fs : FileTree) (f : File) (data old : String) (p : Place)
    (hget : fs.handles.get? f = some ⟨p, true⟩) (hat : fs.fileAt p = some old)
    (hw : (fs.write f data).1 = none) :
    (fs.write f data).2 = fs.store p (old ++ data) := by
  unfold FileTree.write at hw ⊢
  simp only [hget, hat, Bool.not_true, Bool.false_eq_true, if_false] at hw ⊢
  by_cases hfull : fs.diskFull = true
  · simp [hfull] at hw
  · simp [hfull]

/-- Opening a regular file and reading it gives its contents. -/
theorem FileTree.open_read (fs : FileTree) (name data : String) (p : Place)
    (hres : fs.resolve name = some p) (hat : fs.fileAt p = some data) :
    (fs.openFile name).1 = .ok fs.handles.length ∧
      ((fs.openFile name).2.read fs.handles.length).1 = (data, none) := by
  have hat2 : (fs.withHandle ⟨p, false⟩).fileAt p = some data := hat
  have hget : (fs.withHandle ⟨p, false⟩).handles.get? fs.handles.length = some ⟨p, false⟩ :=
    get?_append_length fs.handles ⟨p, false⟩
  simp only [FileTree.openFile, hres, hat, Option.isSome_some, Bool.true_or, if_true,
    FileTree.read, hget, hat2, and_self]

/-- A file that was created and written is opened again under the same name and
gives back what was written. -/
theorem FileTree.read_back (fs : FileTree) (name : String) (f : File) (data : String)
    (hc : (fs.create name).1 = .ok f)
    (hw : ((fs.create name).2.write f data).1 = none) :
    ((((fs.create name).2.write f data).2).openFile name).1 =
        .ok (((fs.create name).2.write f data).2).handles.length ∧
    (((((fs.create name).2.write f data).2).openFile name).2.read
        (((fs.create name).2.write f data).2).handles.length).1 = (data, none) := by
  obtain ⟨p, hres, hf, hfs1⟩ := FileTree.create_ok fs name f hc
  rw [hfs1] at hw ⊢
  subst hf
  have hwr := FileTree.write_ok ((fs.store p "").withHandle ⟨p, true⟩) fs.handles.length data ""
    p (get?_append_length fs.handles ⟨p, true⟩) (fileAt_store fs p "") hw
  rw [hwr]
  apply FileTree.open_read _ name data p
  · exact (resolve_congr fs
      (((fs.store p "").withHandle ⟨p, true⟩).store p ("" ++ data)) rfl rfl name).trans hres
  · have := fileAt_store ((fs.store p "").withHandle ⟨p, true⟩) p ("" ++ data)
    simpa using this

/-- In the host environment a token that was saved is loaded back: if `os.Create`
succeeds, the token marshals and the write goes through, `tokenFromFile` on the
same name returns the token with a nil error. -/
theorem host_save_then_load (t : Token) (p : String) (w : HostWorld) (f : File) (b : String)
    (hcreate : (hostEnv.Create p w).1 = .ok f)
    (hmarshal : hostEnv.jsonMarshal t = .ok b)
    (hwrite : (hostEnv.Write f (b ++ "\n") (hostEnv.Create p w).2).1 = none) :
    (saveToken hostEnv p t w).out = .ret () ∧
    (tokenFromFile hostEnv p (saveToken hostEnv p t w).world).out = .ret (some t, none) := by
  have hc : hostEnv.Create p w = (.ok f, (hostEnv.Create p w).2) := by rw [← hcreate]
  have hsave := saveToken_run_create_ok hostEnv p t w _ f hc
  have henc : encodeDropped hostEnv f t (hostEnv.Create p w).2 =
      ⟨.ret (), (hostEnv.Write f (b ++ "\n") (hostEnv.Create p w).2).2,
       [.fileWrite f (b ++ "\n")]⟩ := by
    simp [encodeDropped, hmarshal, Proc.bind, Proc.call, Proc.pure]
  have hworld : (saveToken hostEnv p t w).world =
      ⟨(((w.fs.create p).2.write f (b ++ "\n")).2), w.net⟩ := by
    rw [hsave, henc]
    rfl
  have hback := FileTree.read_back w.fs p f (b ++ "\n") hcreate hwrite
  refine ⟨by rw [hsave], ?_⟩
  rw [hworld]
  have ho : hostEnv.Open p ⟨(((w.fs.create p).2.write f (b ++ "\n")).2), w.net⟩ =
      (.ok (((w.fs.create p).2.write f (b ++ "\n")).2).handles.length,
       (hostEnv.Open p ⟨(((w.fs.create p).2.write f (b ++ "\n")).2), w.net⟩).2) := by
    apply Prod.ext
    · exact hback.1
    · rfl
  rw [tokenFromFile_run_open_ok hostEnv p _ _ _ ho]
  have hr : (hostEnv.Read (((w.fs.create p).2.write f (b ++ "\n")).2).handles.length
      (hostEnv.Open p ⟨(((w.fs.create p).2.write f (b ++ "\n")).2), w.net⟩).2).1 =
      (b ++ "\n", none) := hback.2
  have hdec : hostEnv.jsonDecode (b ++ "\n") none = (t, none) := goDecode_goMarshal t b hmarshal
  simp only [hr, hdec]

/-- Claim C9 as stated fails. Where the directory of the cache file is missing, and for
the empty path everywhere, `os.Create` fails, `saveToken` ends the process and nothing
is loaded. Where the directory is there but no room is left for file data, or the
expiry of the token lies in the year 10000, `Encode` fails, `saveToken` returns all the
same, and `tokenFromFile` finds an empty file and returns the error `EOF`. -/
theorem cache_round_trip_fails_when_save_fails :
    ((Proc.bind (saveToken hostEnv cachePath sampleToken) fun _ =>
        tokenFromFile hostEnv cachePath) { }).out =
      .fatal ("Unable to cache oauth token: open " ++ cachePath ++
        ": no such file or directory") ∧
    ((Proc.bind (saveToken hostEnv "" sampleToken) fun _ =>
        tokenFromFile hostEnv "") cacheDirWorld).out =
      .fatal "Unable to cache oauth token: open : no such file or directory" ∧
    ((Proc.bind (saveToken hostEnv cachePath sampleToken) fun _ =>
        tokenFromFile hostEnv cachePath)
        { cacheDirWorld with fs := { cacheDirWorld.fs with diskFull := true } }).out =
      .ret (some { }, some (.external "EOF")) ∧
    ((Proc.bind (saveToken hostEnv cachePath { sampleToken with Expiry := 315537897600000000000 })
        fun _ => tokenFromFile hostEnv cachePath) cacheDirWorld).out =
      .ret (some { }, some (.external "EOF")) :=
  ⟨rfl, rfl, rfl, rfl⟩

/-- Claim C9, amended. In the host environment (a file tree, and tokens written and
read as `encoding/json` does it): for every token `t` and every cache path `p`, if
`os.Create p` succeeds and `Encode` succeeds, that is, the token marshals and the write
of its text is accepted, then `saveToken p t` returns and `tokenFromFile p` afterwards
succeeds and yields a token equal to `t` in all fields. -/
theorem cache_round_trip_when_saved (t : Token) (p : String) (w : HostWorld) (f : File)
    (b : String)
    (hcreate : (hostEnv.Create p w).1 = .ok f)
    (hmarshal : hostEnv.jsonMarshal t = .ok b)
    (hwrite : (hostEnv.Write f (b ++ "\n") (hostEnv.Create p w).2).1 = none) :
    ((Proc.bind (saveToken hostEnv p t) fun _ => tokenFromFile hostEnv p) w).out =
      .ret (some t, none) := by
  obtain ⟨hsave, hload⟩ := host_save_then_load t p w f b hcreate hmarshal hwrite
  rcases hrun : saveToken hostEnv p t w with ⟨o, w1, es⟩
  rw [hrun] at hsave hload
  simp only at hsave hload
  subst hsave
  rw [Proc.bind_ret _ _ w w1 () es hrun]
  exact hload

set_option maxRecDepth 100000 in
/-- Claim C9, amended, at a first run: `tokenCacheFile` has made the directory, the
token is saved to the cache file and loaded back equal. -/
theorem cache_round_trip_when_saved_witness :
    (hostEnv.Create cachePath cacheDirWorld).1 = .ok 0 ∧
    hostEnv.jsonMarshal sampleToken = .ok sampleTokenText ∧
    ((Proc.bind (saveToken hostEnv cachePath sampleToken) fun _ =>
        tokenFromFile hostEnv cachePath) cacheDirWorld).out = .ret (some sampleToken, none) :=
  ⟨rfl, rfl, cache_round_trip_when_saved sampleToken cachePath cacheDirWorld 0 sampleTokenText
    rfl rfl rfl⟩

/-- Claim C10 as stated fails: the name `tokenCacheFile` returns has no leading `./`,
because `filepath.Join` cleans the joined path. -/
theorem tokenCacheFile_has_no_dot_slash :
    (tokenCacheFile fakeEnv firstRunWorld).out =
      .ret (".credentials/sheets.googleapis.com-go-quickstart.json", none) ∧
    (tokenCacheFile fakeEnv firstRunWorld).out ≠
      .ret ("./.credentials/sheets.googleapis.com-go-quickstart.json", none) :=
  ⟨rfl, by decide⟩

/-- Claim C10, amended. In every environment and world `tokenCacheFile` returns the
fixed name `.credentials/sheets.googleapis.com-go-quickstart.json` with a nil error:
joining `./` with `.credentials` gives `.credentials`, query-escaping leaves the file
name as it is, and the error is never non-nil, so `getClient` never ends with its
`Unable to get path` message. -/
theorem tokenCacheFile_fixed_name {ω κ : Type} (env : Env ω κ) (config : Config) (w : ω) :
    (tokenCacheFile env w).out =
      .ret (".credentials/sheets.googleapis.com-go-quickstart.json", none) ∧
    filepathJoin ["./", ".credentials"] = ".credentials" ∧
    QueryEscape "sheets.googleapis.com-go-quickstart.json" =
      "sheets.googleapis.com-go-quickstart.json" ∧
    (∀ name e, (tokenCacheFile env w).out ≠ .ret (name, some e)) ∧
    (∀ x, (getClient env config w).out ≠
      .fatal ("Unable to get path to cached credential file. " ++ x)) := by
  refine ⟨by rw [tokenCacheFile_run]; rfl, join_cache_dir, queryEscape_cache_name, ?_, ?_⟩
  · intro name e
    rw [tokenCacheFile_run]
    simp
  · intro x
    obtain ⟨⟨⟨tok, err⟩, hl⟩, -, -⟩ :=
      tokenFromFile_quiet env cachePath (env.MkdirAll ".credentials" 0o700 w).2
    cases err with
    | none => rw [getClient_run_hit env config w tok hl]; simp
    | some e =>
      rw [getClient_run_miss env config w tok e hl]
      simp only
      generalize (tokenFromFile env cachePath (env.MkdirAll ".credentials" 0o700 w).2).world = wl
      rcases hweb : getTokenFromWeb env config wl with ⟨o, w2, es⟩
      have hshape := (getTokenFromWeb_shape env config wl).2.2
      rw [hweb] at hshape
      simp only at hshape
      cases o with
      | ret webTok =>
        rcases hsave : saveToken env cachePath webTok w2 with ⟨o2, w3, es2⟩
        have hs := saveToken_shape env cachePath webTok w2
        rw [hsave] at hs
        simp only at hs
        rcases hs with hs | ⟨y, hs⟩
        · subst hs
          simp [Proc.bind, hweb, hsave, Proc.pure]
        · subst hs
          simp only [Proc.bind, hweb, hsave, ne_eq, Outcome.fatal.injEq]
          exact append_ne_of_take_ne _ _ y x 11 (by decide) (by decide) (by decide)
      | fatal msg =>
        simp only [Proc.bind, hweb, ne_eq, Outcome.fatal.injEq]
        rcases hshape with ⟨_, h⟩ | ⟨y, h⟩ | ⟨y, h⟩
        · cases h
        · cases h
          exact append_ne_of_take_ne _ _ y x 11 (by decide) (by decide) (by decide)
        · cases h
          exact append_ne_of_take_ne _ _ y x 11 (by decide) (by decide) (by decide)
      | panic msg => simp [Proc.bind, hweb]

end TrixGo
